import Mathlib

/-!
Verification development for the PurrView session-aggregation pipeline.

The definitions below are a shallow embedding of `apps/worker/src/tracker.py`
(`FeedingSession`, `SessionTracker.on_analysis`, `SessionTracker.check_idle`)
and of the frame loop of `apps/worker/src/replay.py` (`replay`).

Modelling choices:
* Python `float` timestamps are modelled by `FTime`: a rational number
  (`FTime.fin`) or positive infinity (`FTime.inf`, the value
  `float("inf")` used by the final idle sweep of `replay`).  The two
  float comparisons performed by the source, `(now - last_seen) > timeout`
  and `(ts - last_call) < cooldown`, are modelled by `FTime.timedOut` and
  `FTime.subLt`, which agree with IEEE float semantics on these inputs.
* The Python `dict[str, FeedingSession]` (insertion-ordered, unique keys)
  is modelled by an insertion-ordered association list with `dictGet`,
  `dictSet` (in-place update of an existing key, append otherwise, as
  Python dict assignment behaves) and `dictDel`.
* The Gemini analyzer is opaque: in the replay embedding it is a
  parameter `classify : Entry → Option IdentifyResult`, where `none`
  models a raised exception (the `except` branch of `replay`).
* The filesystem check `img_path.exists()` of `replay` is modelled by a
  per-entry boolean `img_present`.
-/

namespace Purrview

/-- Timestamp values: finite floats are modelled as rationals, and the
`float("inf")` used by `replay`'s final sweep as `FTime.inf`. -/
inductive FTime where
  | fin : ℚ → FTime
  | inf : FTime
deriving DecidableEq, Repr

/-- Models the float comparison `(now - last) > timeout` of
`SessionTracker.check_idle` (with `timeout` finite).  `inf - x = inf > t`
for finite `x`; `x - inf = -inf` is never greater; `inf - inf = NaN`
compares false. -/
def FTime.timedOut (now last : FTime) (timeout : ℚ) : Bool :=
  match now, last with
  | .fin n, .fin l => decide (timeout < n - l)
  | .inf, .fin _ => true
  | .fin _, .inf => false
  | .inf, .inf => false

/-- Models the float comparison `(a - b) < c` of the cooldown gate in
`replay` (with `c` finite). -/
def FTime.subLt (a b : FTime) (c : ℚ) : Bool :=
  match a, b with
  | .fin x, .fin y => decide (x - y < c)
  | .inf, _ => false
  | .fin _, .inf => true

/-- Ordering on timestamps, used to state the nondecreasing-timestamp
precondition of the spec. -/
def FTime.le : FTime → FTime → Bool
  | .fin a, .fin b => decide (a ≤ b)
  | _, .inf => true
  | .inf, .fin _ => false

/-- The `Activity` enum of `analyzer.py`. -/
inductive Activity where
  | eating
  | drinking
  | present
deriving DecidableEq, Repr

/-- The `.value` string of the Python enum member. -/
def Activity.value : Activity → String
  | .eating => "eating"
  | .drinking => "drinking"
  | .present => "present"

/-- The membership test `activity in (Activity.EATING, Activity.DRINKING)`
of `SessionTracker.on_analysis`: the "engaged" activities. -/
def Activity.engaged : Activity → Bool
  | .eating => true
  | .drinking => true
  | .present => false

/-- The `CatActivity` model of `analyzer.py`. -/
structure CatActivity where
  name : String
  activity : Activity
deriving DecidableEq, Repr

/-- The `IdentifyResult` model of `analyzer.py`.  Only `cats` is read by
the tracker. -/
structure IdentifyResult where
  cats_present : Bool
  cats : List CatActivity
  description : Option String
  confidence : ℚ
deriving DecidableEq, Repr

/-- The `frame_info` dict passed by `replay` to `on_analysis`:
`{"filename": fname, "timestamp": ts}`. -/
structure FrameInfo where
  filename : String
  timestamp : FTime
deriving DecidableEq, Repr

/-- The `FeedingSession` dataclass of `tracker.py`. -/
structure FeedingSession where
  cat_name : String
  activity : String
  started_at : FTime
  last_seen_at : FTime
  frames : List FrameInfo
deriving DecidableEq, Repr

/-- The `self.sessions : dict[str, FeedingSession]` mapping, as an
insertion-ordered association list. -/
abbrev Sessions := List (String × FeedingSession)

/-- Python dict lookup `m.get(k)`: first (and, with unique keys, only)
binding of `k`. -/
def dictGet (m : Sessions) (k : String) : Option FeedingSession :=
  match m with
  | [] => none
  | (k', v) :: rest => if k' = k then some v else dictGet rest k

/-- Python dict assignment `m[k] = v`: update in place when the key is
present, append at the end otherwise. -/
def dictSet (m : Sessions) (k : String) (v : FeedingSession) : Sessions :=
  match m with
  | [] => [(k, v)]
  | (k', v') :: rest => if k' = k then (k, v) :: rest else (k', v') :: dictSet rest k v

/-- Python dict deletion `del m[k]`. -/
def dictDel (m : Sessions) (k : String) : Sessions :=
  m.filter (fun p => p.1 ≠ k)

/-- The `SessionTracker` class: configured idle timeout plus the open
session map. -/
structure SessionTracker where
  idle_timeout : ℚ
  sessions : Sessions
deriving DecidableEq, Repr

/-- `SessionTracker.__init__`: empty session map. -/
def SessionTracker.mk0 (idle_timeout : ℚ) : SessionTracker :=
  ⟨idle_timeout, []⟩

/-- The `FeedingSession(...)` construction of `on_analysis`: a new
session with `started_at = last_seen_at = timestamp` and the frame list
seeded with `frame_info` when one is given. -/
def freshSession (cat : CatActivity) (timestamp : FTime)
    (frame_info : Option FrameInfo) : FeedingSession :=
  ⟨cat.name, cat.activity.value, timestamp, timestamp, frame_info.toList⟩

/-- The continue-existing-session mutation of `on_analysis`:
`existing.last_seen_at = timestamp` plus the conditional
`existing.frames.append(frame_info)`. -/
def continueSession (s : FeedingSession) (timestamp : FTime)
    (frame_info : Option FrameInfo) : FeedingSession :=
  { s with last_seen_at := timestamp, frames := s.frames ++ frame_info.toList }

/-- The passive-observation mutation of `on_analysis`:
`existing.last_seen_at = timestamp` only. -/
def touchSession (s : FeedingSession) (timestamp : FTime) : FeedingSession :=
  { s with last_seen_at := timestamp }

/-- The body of the `for cat in result.cats` loop of
`SessionTracker.on_analysis`, for a single cat: returns the updated
tracker and the sessions completed for that cat. -/
def SessionTracker.onCat (tr : SessionTracker) (timestamp : FTime)
    (frame_info : Option FrameInfo) (cat : CatActivity) :
    SessionTracker × List FeedingSession :=
  if cat.activity.engaged then
    match dictGet tr.sessions cat.name with
    | some s =>
      if s.activity ≠ cat.activity.value then
        let m1 := dictSet (dictDel tr.sessions cat.name) cat.name (freshSession cat timestamp frame_info)
        ({ tr with sessions := m1 }, [s])
      else
        let m1 := dictSet tr.sessions cat.name (continueSession s timestamp frame_info)
        ({ tr with sessions := m1 }, [])
    | none =>
      let m1 := dictSet tr.sessions cat.name (freshSession cat timestamp frame_info)
      ({ tr with sessions := m1 }, [])
  else if cat.activity = Activity.present then
    match dictGet tr.sessions cat.name with
    | some s =>
      let m1 := dictSet tr.sessions cat.name (touchSession s timestamp)
      ({ tr with sessions := m1 }, [])
    | none => (tr, [])
  else (tr, [])

/-- One fold step of `on_analysis` over `result.cats`, accumulating the
`completed` list. -/
def onAnalysisGo (timestamp : FTime) (frame_info : Option FrameInfo)
    (acc : SessionTracker × List FeedingSession) (cat : CatActivity) :
    SessionTracker × List FeedingSession :=
  ((acc.1.onCat timestamp frame_info cat).1,
   acc.2 ++ (acc.1.onCat timestamp frame_info cat).2)

/-- `SessionTracker.on_analysis`: process a Gemini result, returning the
updated tracker and the list of completed sessions. -/
def SessionTracker.on_analysis (tr : SessionTracker) (result : IdentifyResult)
    (timestamp : FTime) (frame_info : Option FrameInfo) :
    SessionTracker × List FeedingSession :=
  result.cats.foldl (onAnalysisGo timestamp frame_info) (tr, [])

/-- One iteration of the `for name in list(self.sessions)` loop of
`SessionTracker.check_idle`. -/
def checkIdleStep (now : FTime) (acc : SessionTracker × List FeedingSession)
    (name : String) : SessionTracker × List FeedingSession :=
  match dictGet acc.1.sessions name with
  | some session =>
    if FTime.timedOut now session.last_seen_at acc.1.idle_timeout then
      ({ acc.1 with sessions := dictDel acc.1.sessions name }, acc.2 ++ [session])
    else acc
  | none => acc

/-- `SessionTracker.check_idle`: sweep the open map (over a snapshot of
its keys), completing every session whose idle gap exceeds the timeout. -/
def SessionTracker.check_idle (tr : SessionTracker) (now : FTime) :
    SessionTracker × List FeedingSession :=
  (tr.sessions.map Prod.fst).foldl (checkIdleStep now) (tr, [])

/-- One call into the tracker: an analysis result (entry point A) or an
idle check (entry point B). -/
inductive TrackerOp where
  | obs : IdentifyResult → FTime → Option FrameInfo → TrackerOp
  | idle : FTime → TrackerOp
deriving DecidableEq, Repr

/-- The timestamp carried by a tracker call. -/
def TrackerOp.time : TrackerOp → FTime
  | .obs _ t _ => t
  | .idle t => t

/-- Apply one tracker call. -/
def applyOp (tr : SessionTracker) (op : TrackerOp) :
    SessionTracker × List FeedingSession :=
  match op with
  | .obs r t fi => tr.on_analysis r t fi
  | .idle t => tr.check_idle t

/-- One fold step of a run of tracker calls, accumulating completions. -/
def runOpsGo (acc : SessionTracker × List FeedingSession) (op : TrackerOp) :
    SessionTracker × List FeedingSession :=
  ((applyOp acc.1 op).1, acc.2 ++ (applyOp acc.1 op).2)

/-- Run a sequence of tracker calls, accumulating all completed
sessions in emission order. -/
def runOps (tr : SessionTracker) (ops : List TrackerOp) :
    SessionTracker × List FeedingSession :=
  ops.foldl runOpsGo (tr, [])

/-- One record of the replay archive (`gallery_meta.jsonl`), already
filtered to motion frames and sorted by timestamp as `replay` does
before its loop.  `img_present` models `img_path.exists()`. -/
structure Entry where
  filename : String
  timestamp : FTime
  motion_score : ℚ
  img_present : Bool
deriving DecidableEq, Repr

/-- The loop state of `replay`: the tracker, `all_completed`,
`last_call` and the `errors` counter. -/
structure ReplayState where
  tracker : SessionTracker
  all_completed : List FeedingSession
  last_call : FTime
  errors : ℕ
deriving DecidableEq, Repr

/-- The body of the `for i, entry in enumerate(entries)` loop of
`replay`: skip missing images; idle-sweep at the frame timestamp; apply
the cooldown gate; classify; feed the result to the tracker, counting
classification failures. -/
def replayStep (cooldown : ℚ) (classify : Entry → Option IdentifyResult)
    (st : ReplayState) (e : Entry) : ReplayState :=
  if e.img_present = false then st
  else
    let ts := e.timestamp
    let idle := st.tracker.check_idle ts
    let st1 : ReplayState := ⟨idle.1, st.all_completed ++ idle.2, st.last_call, st.errors⟩
    if FTime.subLt ts st1.last_call cooldown then st1
    else
      let st2 : ReplayState := { st1 with last_call := ts }
      match classify e with
      | none => { st2 with errors := st2.errors + 1 }
      | some result =>
        let res := st2.tracker.on_analysis result ts (some ⟨e.filename, ts⟩)
        { st2 with tracker := res.1, all_completed := st2.all_completed ++ res.2 }

/-- The replay loop over the archive entries. -/
def replayLoop (cooldown : ℚ) (classify : Entry → Option IdentifyResult)
    (st : ReplayState) (entries : List Entry) : ReplayState :=
  entries.foldl (replayStep cooldown classify) st

/-- The initial replay state: fresh tracker, `last_call = 0.0`, no
errors. -/
def replayInit (idle_timeout : ℚ) : ReplayState :=
  ⟨SessionTracker.mk0 idle_timeout, [], .fin 0, 0⟩

/-- The whole `replay` run: the frame loop followed by the final
`tracker.check_idle(now=float("inf"))` flush. -/
def replayRun (idle_timeout cooldown : ℚ)
    (classify : Entry → Option IdentifyResult) (entries : List Entry) :
    ReplayState :=
  let st := replayLoop cooldown classify (replayInit idle_timeout) entries
  let final := st.tracker.check_idle .inf
  { st with tracker := final.1, all_completed := st.all_completed ++ final.2 }

/-- A session is well-formed relative to a time bound `T`: nonnegative
duration and last observed no later than `T`. -/
def sessOk (T : FTime) (s : FeedingSession) : Prop :=
  FTime.le s.started_at s.last_seen_at = true ∧ FTime.le s.last_seen_at T = true

/-- The number of `FeedingSession(...)` constructions (session opens)
performed by the loop body of `on_analysis` for one cat, as a function
of the open map it runs against. -/
def onCatOpens (m : Sessions) (cat : CatActivity) : ℕ :=
  if cat.activity.engaged then
    match dictGet m cat.name with
    | some s => if s.activity ≠ cat.activity.value then 1 else 0
    | none => 1
  else 0

/-- Fold step mirroring `onAnalysisGo` while counting session opens. -/
def onAnalysisOpensGo (timestamp : FTime) (frame_info : Option FrameInfo)
    (acc : SessionTracker × ℕ) (cat : CatActivity) : SessionTracker × ℕ :=
  ((acc.1.onCat timestamp frame_info cat).1,
   acc.2 + onCatOpens acc.1.sessions cat)

/-- The number of sessions opened by one `on_analysis` call. -/
def onAnalysisOpens (tr : SessionTracker) (result : IdentifyResult)
    (timestamp : FTime) (frame_info : Option FrameInfo) : ℕ :=
  (result.cats.foldl (onAnalysisOpensGo timestamp frame_info) (tr, 0)).2

/-- The number of sessions opened while processing one replay frame. -/
def replayStepOpens (cooldown : ℚ) (classify : Entry → Option IdentifyResult)
    (st : ReplayState) (e : Entry) : ℕ :=
  if e.img_present = false then 0
  else
    let ts := e.timestamp
    let tr1 := (st.tracker.check_idle ts).1
    if FTime.subLt ts st.last_call cooldown then 0
    else
      match classify e with
      | none => 0
      | some result => onAnalysisOpens tr1 result ts (some ⟨e.filename, ts⟩)

/-- Fold step mirroring `replayStep` while counting session opens. -/
def replayOpensGo (cooldown : ℚ) (classify : Entry → Option IdentifyResult)
    (acc : ReplayState × ℕ) (e : Entry) : ReplayState × ℕ :=
  (replayStep cooldown classify acc.1 e,
   acc.2 + replayStepOpens cooldown classify acc.1 e)

/-- The total number of sessions opened over a whole replay run. -/
def replayOpens (idle_timeout cooldown : ℚ)
    (classify : Entry → Option IdentifyResult) (entries : List Entry) : ℕ :=
  (entries.foldl (replayOpensGo cooldown classify) (replayInit idle_timeout, 0)).2

/-- The replay state after the idle sweep at the head of a frame
iteration (`completed = tracker.check_idle(now=ts)` followed by
`all_completed.extend(completed)`), before the cooldown gate. -/
def idleSwept (st : ReplayState) (ts : FTime) : ReplayState :=
  ⟨(st.tracker.check_idle ts).1, st.all_completed ++ (st.tracker.check_idle ts).2,
   st.last_call, st.errors⟩

/-- The replay state after feeding an observation to the tracker
(`completed = tracker.on_analysis(...)` followed by
`all_completed.extend(completed)`). -/
def obsApplied (st : ReplayState) (r : IdentifyResult) (ts : FTime)
    (fi : Option FrameInfo) : ReplayState :=
  ⟨(st.tracker.on_analysis r ts fi).1, st.all_completed ++ (st.tracker.on_analysis r ts fi).2,
   st.last_call, st.errors⟩

/-- Structural invariant of replay states: unique keys in the open map
and finite last-observed timestamps. -/
def replayInv (st : ReplayState) : Prop :=
  ((st.tracker.sessions.map Prod.fst).Nodup) ∧
  ∀ p ∈ st.tracker.sessions, ∃ q, p.2.last_seen_at = FTime.fin q

/-- An `IdentifyResult` reporting a single cat, used by concrete
witnesses and counterexamples. -/
def oneCat (name : String) (a : Activity) : IdentifyResult :=
  ⟨true, [⟨name, a⟩], none, 1⟩

/-- A classifier that always fails, used by concrete witnesses and
counterexamples: `errors` then counts exactly the classification
attempts. -/
def classifyFail : Entry → Option IdentifyResult := fun _ => none

/-! ### Basic lemmas about `FTime` -/

theorem FTime.le_refl (a : FTime) : FTime.le a a = true := by
  cases a <;> simp [FTime.le]

theorem FTime.le_trans {a b c : FTime} (h1 : FTime.le a b = true)
    (h2 : FTime.le b c = true) : FTime.le a c = true := by
  cases a <;> cases b <;> cases c <;> simp_all [FTime.le]
  linarith

/-! ### Lemmas about the dict embedding -/

theorem dictGet_dictSet_self (m : Sessions) (k : String) (v : FeedingSession) :
    dictGet (dictSet m k v) k = some v := by
  induction m with
  | nil => simp [dictGet, dictSet]
  | cons p rest ih =>
    by_cases h : p.1 = k
    · simp [dictGet, dictSet, h]
    · simp [dictGet, dictSet, h, ih]

theorem dictGet_dictSet_ne (m : Sessions) (k k' : String) (v : FeedingSession)
    (h : k' ≠ k) : dictGet (dictSet m k v) k' = dictGet m k' := by
  have hk : k ≠ k' := Ne.symm h
  induction m with
  | nil => simp [dictGet, dictSet, hk]
  | cons p rest ih =>
    by_cases hp : p.1 = k
    · subst hp
      simp [dictGet, dictSet, hk, Ne.symm hk]
    · by_cases hp' : p.1 = k'
      · simp [dictGet, dictSet, hp, hp', h]
      · simp [dictGet, dictSet, hp, hp', ih]

theorem mem_dictSet {m : Sessions} {k : String} {v : FeedingSession}
    {p : String × FeedingSession} (h : p ∈ dictSet m k v) :
    p = (k, v) ∨ p ∈ m := by
  induction m with
  | nil => simpa [dictSet] using h
  | cons q rest ih =>
    by_cases hq : q.1 = k
    · simp only [dictSet, hq, if_pos] at h
      rcases List.mem_cons.1 h with h | h
      · exact Or.inl h
      · exact Or.inr (List.mem_cons_of_mem _ h)
    · simp only [dictSet, hq, if_neg, not_false_iff] at h
      rcases List.mem_cons.1 h with h | h
      · exact Or.inr (h ▸ List.mem_cons_self _ _)
      · rcases ih h with h | h
        · exact Or.inl h
        · exact Or.inr (List.mem_cons_of_mem _ h)

theorem keys_dictSet_mem (m : Sessions) (k : String) (v : FeedingSession)
    (h : k ∈ m.map Prod.fst) :
    (dictSet m k v).map Prod.fst = m.map Prod.fst := by
  induction m with
  | nil => simp at h
  | cons p rest ih =>
    by_cases hp : p.1 = k
    · simp [dictSet, hp]
    · simp only [List.map_cons, List.mem_cons] at h
      rcases h with h | h



      · exact absurd h.symm hp
      · simp [dictSet, hp, ih h]

theorem keys_dictSet_not_mem (m : Sessions) (k : String) (v : FeedingSession)
    (h : k ∉ m.map Prod.fst) :
    (dictSet m k v).map Prod.fst = m.map Prod.fst ++ [k] := by
  induction m with
  | nil => simp [dictSet]
  | cons p rest ih =>
    simp only [List.map_cons, List.mem_cons] at h
    push_neg at h
    simp [dictSet, Ne.symm h.1, ih h.2]

theorem dictGet_eq_none_of_not_mem {m : Sessions} {k : String}
    (h : k ∉ m.map Prod.fst) : dictGet m k = none := by
  induction m with
  | nil => simp [dictGet]
  | cons p rest ih =>
    simp only [List.map_cons, List.mem_cons] at h
    push_neg at h
    simp [dictGet, Ne.symm h.1, ih h.2]

theorem mem_keys_of_dictGet {m : Sessions} {k : String} {v : FeedingSession}
    (h : dictGet m k = some v) : k ∈ m.map Prod.fst := by
  by_contra hk
  rw [dictGet_eq_none_of_not_mem hk] at h
  exact Option.noConfusion h

theorem dictGet_mem {m : Sessions} {k : String} {v : FeedingSession}
    (h : dictGet m k = some v) : (k, v) ∈ m := by
  induction m with
  | nil => simp [dictGet] at h
  | cons p rest ih =>
    obtain ⟨a, b⟩ := p
    by_cases hp : a = k
    · subst hp
      simp only [dictGet, if_pos] at h
      injection h with h
      subst h
      exact List.mem_cons_self _ _
    · simp only [dictGet, if_neg hp] at h
      exact List.mem_cons_of_mem _ (ih h)

theorem dictDel_sublist (m : Sessions) (k : String) : (dictDel m k).Sublist m :=
  List.filter_sublist m

theorem mem_of_mem_dictDel {m : Sessions} {k : String}
    {p : String × FeedingSession} (h : p ∈ dictDel m k) : p ∈ m :=
  (dictDel_sublist m k).mem h

theorem keys_dictDel (m : Sessions) (k : String) :
    (dictDel m k).map Prod.fst = (m.map Prod.fst).filter (fun x => x ≠ k) := by
  induction m with
  | nil => simp [dictDel]
  | cons p rest ih =>
    by_cases hp : p.1 = k
    · simp [dictDel, List.filter_cons, hp] at ih ⊢
      exact ih
    · simp [dictDel, List.filter_cons, hp] at ih ⊢
      exact ih

theorem dictDel_of_not_mem {m : Sessions} {k : String}
    (h : k ∉ m.map Prod.fst) : dictDel m k = m := by
  induction m with
  | nil => rfl
  | cons p rest ih =>
    simp only [List.map_cons, List.mem_cons] at h
    push_neg at h
    have hp : p.1 ≠ k := Ne.symm h.1
    have hr := ih h.2
    simp only [dictDel] at hr
    simp only [dictDel, List.filter_cons]
    rw [if_pos (by simp [hp]), hr]

theorem dictGet_append_of_not_mem {pre m : Sessions} {k : String}
    (h : k ∉ pre.map Prod.fst) : dictGet (pre ++ m) k = dictGet m k := by
  induction pre with
  | nil => rfl
  | cons p rest ih =>
    obtain ⟨a, b⟩ := p
    simp only [List.map_cons, List.mem_cons] at h
    push_neg at h
    have hp : a ≠ k := Ne.symm h.1
    simp only [List.cons_append, dictGet, if_neg hp]
    exact ih h.2

theorem dictDel_append (pre m : Sessions) (k : String) :
    dictDel (pre ++ m) k = dictDel pre k ++ dictDel m k := by
  simp only [dictDel, List.filter_append]

theorem not_mem_keys_dictDel (m : Sessions) (k : String) :
    k ∉ (dictDel m k).map Prod.fst := by
  rw [keys_dictDel]
  intro h
  have := List.of_mem_filter h
  simp at this

theorem nodup_keys_dictDel {m : Sessions} (k : String)
    (h : (m.map Prod.fst).Nodup) : ((dictDel m k).map Prod.fst).Nodup := by
  rw [keys_dictDel]
  exact h.filter _

theorem nodup_keys_dictSet {m : Sessions} (k : String) (v : FeedingSession)
    (h : (m.map Prod.fst).Nodup) : ((dictSet m k v).map Prod.fst).Nodup := by
  by_cases hk : k ∈ m.map Prod.fst
  · rw [keys_dictSet_mem m k v hk]
    exact h
  · rw [keys_dictSet_not_mem m k v hk]
    simp [List.nodup_append, h, hk]

theorem length_dictSet_mem (m : Sessions) (k : String) (v : FeedingSession)
    (h : k ∈ m.map Prod.fst) : (dictSet m k v).length = m.length := by
  have := keys_dictSet_mem m k v h
  have h1 : ((dictSet m k v).map Prod.fst).length = ((m.map Prod.fst)).length := by rw [this]
  simpa using h1

theorem length_dictSet_not_mem (m : Sessions) (k : String) (v : FeedingSession)
    (h : k ∉ m.map Prod.fst) : (dictSet m k v).length = m.length + 1 := by
  have := keys_dictSet_not_mem m k v h
  have h1 : ((dictSet m k v).map Prod.fst).length = ((m.map Prod.fst) ++ [k]).length := by rw [this]
  simpa using h1

theorem length_dictDel_of_mem {m : Sessions} {k : String}
    (hnd : (m.map Prod.fst).Nodup) (h : k ∈ m.map Prod.fst) :
    (dictDel m k).length + 1 = m.length := by
  induction m with
  | nil => simp at h
  | cons p rest ih =>
    obtain ⟨a, b⟩ := p
    simp only [List.map_cons, List.nodup_cons] at hnd
    by_cases hp : a = k
    · subst hp
      have hrest : dictDel rest a = rest := dictDel_of_not_mem hnd.1
      simp only [dictDel] at hrest
      simp only [dictDel, List.filter_cons]
      rw [if_neg (by simp), hrest]
      simp
    · simp only [List.map_cons, List.mem_cons] at h
      rcases h with h | h
      · exact absurd h.symm hp
      · have hih := ih hnd.2 h
        simp only [dictDel, List.filter_cons] at hih ⊢
        simp [hp] at hih ⊢
        omega

/-! ### Case equations for `onCat` -/

theorem activity_eq_present_of_not_engaged {a : Activity}
    (h : ¬ a.engaged = true) : a = Activity.present := by
  cases a <;> simp_all [Activity.engaged]

theorem onCat_engaged_change (tr : SessionTracker) (t : FTime)
    (fi : Option FrameInfo) (cat : CatActivity) (s : FeedingSession)
    (hE : cat.activity.engaged = true)
    (hget : dictGet tr.sessions cat.name = some s)
    (hne : s.activity ≠ cat.activity.value) :
    tr.onCat t fi cat =
      ({ tr with sessions := dictSet (dictDel tr.sessions cat.name) cat.name (freshSession cat t fi) }, [s]) := by
  simp [SessionTracker.onCat, hE, hget, hne]

theorem onCat_engaged_same (tr : SessionTracker) (t : FTime)
    (fi : Option FrameInfo) (cat : CatActivity) (s : FeedingSession)
    (hE : cat.activity.engaged = true)
    (hget : dictGet tr.sessions cat.name = some s)
    (heq : s.activity = cat.activity.value) :
    tr.onCat t fi cat =
      ({ tr with sessions := dictSet tr.sessions cat.name (continueSession s t fi) }, []) := by
  simp [SessionTracker.onCat, hE, hget, heq]

theorem onCat_engaged_new (tr : SessionTracker) (t : FTime)
    (fi : Option FrameInfo) (cat : CatActivity)
    (hE : cat.activity.engaged = true)
    (hget : dictGet tr.sessions cat.name = none) :
    tr.onCat t fi cat =
      ({ tr with sessions := dictSet tr.sessions cat.name (freshSession cat t fi) }, []) := by
  simp [SessionTracker.onCat, hE, hget]

theorem onCat_present_open (tr : SessionTracker) (t : FTime)
    (fi : Option FrameInfo) (cat : CatActivity) (s : FeedingSession)
    (hP : cat.activity = Activity.present)
    (hget : dictGet tr.sessions cat.name = some s) :
    tr.onCat t fi cat =
      ({ tr with sessions := dictSet tr.sessions cat.name (touchSession s t) }, []) := by
  simp [SessionTracker.onCat, hP, hget, Activity.engaged]

theorem onCat_present_idle (tr : SessionTracker) (t : FTime)
    (fi : Option FrameInfo) (cat : CatActivity)
    (hP : cat.activity = Activity.present)
    (hget : dictGet tr.sessions cat.name = none) :
    tr.onCat t fi cat = (tr, []) := by
  simp [SessionTracker.onCat, hP, hget, Activity.engaged]

/-! ### Structural invariants preserved by `onCat` -/

theorem onCat_timeout_eq (tr : SessionTracker) (t : FTime)
    (fi : Option FrameInfo) (cat : CatActivity) :
    (tr.onCat t fi cat).1.idle_timeout = tr.idle_timeout := by
  by_cases hE : cat.activity.engaged = true
  · cases hget : dictGet tr.sessions cat.name with
    | none => rw [onCat_engaged_new tr t fi cat hE hget]
    | some s =>
      by_cases hne : s.activity = cat.activity.value
      · rw [onCat_engaged_same tr t fi cat s hE hget hne]
      · rw [onCat_engaged_change tr t fi cat s hE hget hne]
  · have hP := activity_eq_present_of_not_engaged hE
    cases hget : dictGet tr.sessions cat.name with
    | none => rw [onCat_present_idle tr t fi cat hP hget]
    | some s => rw [onCat_present_open tr t fi cat s hP hget]

theorem onCat_nodup {tr : SessionTracker} (t : FTime)
    (fi : Option FrameInfo) (cat : CatActivity)
    (h : (tr.sessions.map Prod.fst).Nodup) :
    (((tr.onCat t fi cat).1.sessions).map Prod.fst).Nodup := by
  by_cases hE : cat.activity.engaged = true
  · cases hget : dictGet tr.sessions cat.name with
    | none =>
      rw [onCat_engaged_new tr t fi cat hE hget]
      exact nodup_keys_dictSet _ _ h
    | some s =>
      by_cases hne : s.activity = cat.activity.value
      · rw [onCat_engaged_same tr t fi cat s hE hget hne]
        exact nodup_keys_dictSet _ _ h
      · rw [onCat_engaged_change tr t fi cat s hE hget hne]
        exact nodup_keys_dictSet _ _ (nodup_keys_dictDel _ h)
  · have hP := activity_eq_present_of_not_engaged hE
    cases hget : dictGet tr.sessions cat.name with
    | none =>
      rw [onCat_present_idle tr t fi cat hP hget]
      exact h
    | some s =>
      rw [onCat_present_open tr t fi cat s hP hget]
      exact nodup_keys_dictSet _ _ h

theorem exists_dictGet_of_mem_keys {m : Sessions} {k : String}
    (h : k ∈ m.map Prod.fst) : ∃ v, dictGet m k = some v := by
  induction m with
  | nil => simp at h
  | cons p rest ih =>
    obtain ⟨a, b⟩ := p
    by_cases hp : a = k
    · exact ⟨b, by simp [dictGet, hp]⟩
    · simp only [List.map_cons, List.mem_cons] at h
      rcases h with h | h
      · exact absurd h.symm hp
      · rcases ih h with ⟨v, hv⟩
        exact ⟨v, by simp [dictGet, hp, hv]⟩

theorem sessOk_mono {T T' : FTime} {s : FeedingSession} (h : sessOk T s)
    (hT : FTime.le T T' = true) : sessOk T' s :=
  ⟨h.1, FTime.le_trans h.2 hT⟩

theorem onCat_ok {tr : SessionTracker} {t : FTime} (fi : Option FrameInfo)
    (cat : CatActivity) (hT : ∀ p ∈ tr.sessions, sessOk t p.2) :
    (∀ p ∈ (tr.onCat t fi cat).1.sessions, sessOk t p.2) ∧
    (∀ s ∈ (tr.onCat t fi cat).2, FTime.le s.started_at s.last_seen_at = true) := by
  have hfresh : sessOk t (freshSession cat t fi) :=
    ⟨FTime.le_refl _, FTime.le_refl _⟩
  by_cases hE : cat.activity.engaged = true
  · cases hget : dictGet tr.sessions cat.name with
    | none =>
      rw [onCat_engaged_new tr t fi cat hE hget]
      refine ⟨fun p hp => ?_, by simp⟩
      rcases mem_dictSet hp with h | h
      · rw [h]; exact hfresh
      · exact hT p h
    | some s =>
      have hs : sessOk t s := hT (cat.name, s) (dictGet_mem hget)
      by_cases hne : s.activity = cat.activity.value
      · rw [onCat_engaged_same tr t fi cat s hE hget hne]
        refine ⟨fun p hp => ?_, by simp⟩
        rcases mem_dictSet hp with h | h
        · rw [h]
          exact ⟨FTime.le_trans hs.1 hs.2, FTime.le_refl _⟩
        · exact hT p h
      · rw [onCat_engaged_change tr t fi cat s hE hget hne]
        refine ⟨fun p hp => ?_, ?_⟩
        · rcases mem_dictSet hp with h | h
          · rw [h]; exact hfresh
          · exact hT p (mem_of_mem_dictDel h)
        · intro x hx
          rw [List.mem_singleton] at hx
          rw [hx]
          exact hs.1
  · have hP := activity_eq_present_of_not_engaged hE
    cases hget : dictGet tr.sessions cat.name with
    | none =>
      rw [onCat_present_idle tr t fi cat hP hget]
      exact ⟨hT, by simp⟩
    | some s =>
      have hs : sessOk t s := hT (cat.name, s) (dictGet_mem hget)
      rw [onCat_present_open tr t fi cat s hP hget]
      refine ⟨fun p hp => ?_, by simp⟩
      rcases mem_dictSet hp with h | h
      · rw [h]
        exact ⟨FTime.le_trans hs.1 hs.2, FTime.le_refl _⟩
      · exact hT p h

theorem onCat_last_seen_mem {tr : SessionTracker} {t : FTime}
    {fi : Option FrameInfo} {cat : CatActivity} {p : String × FeedingSession}
    (hp : p ∈ (tr.onCat t fi cat).1.sessions) :
    p ∈ tr.sessions ∨ p.2.last_seen_at = t := by
  by_cases hE : cat.activity.engaged = true
  · cases hget : dictGet tr.sessions cat.name with
    | none =>
      rw [onCat_engaged_new tr t fi cat hE hget] at hp
      rcases mem_dictSet hp with h | h
      · right; rw [h]; rfl
      · exact Or.inl h
    | some s =>
      by_cases hne : s.activity = cat.activity.value
      · rw [onCat_engaged_same tr t fi cat s hE hget hne] at hp
        rcases mem_dictSet hp with h | h
        · right; rw [h]; rfl
        · exact Or.inl h
      · rw [onCat_engaged_change tr t fi cat s hE hget hne] at hp
        rcases mem_dictSet hp with h | h
        · right; rw [h]; rfl
        · exact Or.inl (mem_of_mem_dictDel h)
  · have hP := activity_eq_present_of_not_engaged hE
    cases hget : dictGet tr.sessions cat.name with
    | none =>
      rw [onCat_present_idle tr t fi cat hP hget] at hp
      exact Or.inl hp
    | some s =>
      rw [onCat_present_open tr t fi cat s hP hget] at hp
      rcases mem_dictSet hp with h | h
      · right; rw [h]; rfl
      · exact Or.inl h

theorem onCat_conservation {tr : SessionTracker} (t : FTime)
    (fi : Option FrameInfo) (cat : CatActivity)
    (hnd : (tr.sessions.map Prod.fst).Nodup) :
    ((tr.onCat t fi cat).1.sessions).length + ((tr.onCat t fi cat).2).length
      = tr.sessions.length + onCatOpens tr.sessions cat := by
  by_cases hE : cat.activity.engaged = true
  · cases hget : dictGet tr.sessions cat.name with
    | none =>
      have hk : cat.name ∉ tr.sessions.map Prod.fst := by
        intro hmem
        rcases exists_dictGet_of_mem_keys hmem with ⟨v, hv⟩
        rw [hget] at hv
        exact Option.noConfusion hv
      rw [onCat_engaged_new tr t fi cat hE hget]
      simp [onCatOpens, hE, hget, length_dictSet_not_mem _ _ _ hk]
    | some s =>
      have hk : cat.name ∈ tr.sessions.map Prod.fst := mem_keys_of_dictGet hget
      by_cases hne : s.activity = cat.activity.value
      · rw [onCat_engaged_same tr t fi cat s hE hget hne]
        simp [onCatOpens, hE, hget, hne, length_dictSet_mem _ _ _ hk]
      · rw [onCat_engaged_change tr t fi cat s hE hget hne]
        have hdel : cat.name ∉ (dictDel tr.sessions cat.name).map Prod.fst :=
          not_mem_keys_dictDel _ _
        have hlen := length_dictDel_of_mem hnd hk
        simp only [List.length_cons, List.length_nil]
        rw [length_dictSet_not_mem _ _ _ hdel]
        simp [onCatOpens, hE, hget, hne]
        omega
  · have hP := activity_eq_present_of_not_engaged hE
    cases hget : dictGet tr.sessions cat.name with
    | none =>
      rw [onCat_present_idle tr t fi cat hP hget]
      simp [onCatOpens, hE]
    | some s =>
      have hk : cat.name ∈ tr.sessions.map Prod.fst := mem_keys_of_dictGet hget
      rw [onCat_present_open tr t fi cat s hP hget]
      simp [onCatOpens, hE, length_dictSet_mem _ _ _ hk]

/-! ### Lemmas about `on_analysis` (fold over the observed cats) -/

theorem on_analysis_singleton (tr : SessionTracker) (r : IdentifyResult)
    (t : FTime) (fi : Option FrameInfo) (c : CatActivity) (h : r.cats = [c]) :
    tr.on_analysis r t fi = tr.onCat t fi c := by
  simp [SessionTracker.on_analysis, h, onAnalysisGo]

theorem foldl_onAnalysisGo_nodup (t : FTime) (fi : Option FrameInfo) :
    ∀ (cats : List CatActivity) (tr : SessionTracker) (acc : List FeedingSession),
      (tr.sessions.map Prod.fst).Nodup →
      (((cats.foldl (onAnalysisGo t fi) (tr, acc)).1.sessions).map Prod.fst).Nodup := by
  intro cats
  induction cats with
  | nil => intro tr acc h; simpa using h
  | cons c cs ih =>
    intro tr acc h
    rw [List.foldl_cons]
    simp only [onAnalysisGo]
    exact ih _ _ (onCat_nodup t fi c h)

theorem on_analysis_nodup {tr : SessionTracker} (r : IdentifyResult)
    (t : FTime) (fi : Option FrameInfo)
    (h : (tr.sessions.map Prod.fst).Nodup) :
    (((tr.on_analysis r t fi).1.sessions).map Prod.fst).Nodup :=
  foldl_onAnalysisGo_nodup t fi r.cats tr [] h

theorem foldl_onAnalysisGo_timeout (t : FTime) (fi : Option FrameInfo) :
    ∀ (cats : List CatActivity) (tr : SessionTracker) (acc : List FeedingSession),
      (cats.foldl (onAnalysisGo t fi) (tr, acc)).1.idle_timeout = tr.idle_timeout := by
  intro cats
  induction cats with
  | nil => intro tr acc; rfl
  | cons c cs ih =>
    intro tr acc
    rw [List.foldl_cons]
    simp only [onAnalysisGo]
    rw [ih]
    exact onCat_timeout_eq tr t fi c

theorem on_analysis_timeout_eq (tr : SessionTracker) (r : IdentifyResult)
    (t : FTime) (fi : Option FrameInfo) :
    (tr.on_analysis r t fi).1.idle_timeout = tr.idle_timeout :=
  foldl_onAnalysisGo_timeout t fi r.cats tr []

theorem foldl_onAnalysisGo_ok (t : FTime) (fi : Option FrameInfo) :
    ∀ (cats : List CatActivity) (tr : SessionTracker) (acc : List FeedingSession),
      (∀ p ∈ tr.sessions, sessOk t p.2) →
      (∀ s ∈ acc, FTime.le s.started_at s.last_seen_at = true) →
      (∀ p ∈ (cats.foldl (onAnalysisGo t fi) (tr, acc)).1.sessions, sessOk t p.2) ∧
      (∀ s ∈ (cats.foldl (onAnalysisGo t fi) (tr, acc)).2,
        FTime.le s.started_at s.last_seen_at = true) := by
  intro cats
  induction cats with
  | nil =>
    intro tr acc h1 h2
    exact ⟨h1, h2⟩
  | cons c cs ih =>
    intro tr acc h1 h2
    rw [List.foldl_cons]
    simp only [onAnalysisGo]
    have hc := onCat_ok fi c h1
    refine ih _ _ hc.1 ?_
    intro s hs
    rcases List.mem_append.1 hs with hs | hs
    · exact h2 s hs
    · exact hc.2 s hs

theorem on_analysis_ok {tr : SessionTracker} (r : IdentifyResult)
    (t : FTime) (fi : Option FrameInfo)
    (h : ∀ p ∈ tr.sessions, sessOk t p.2) :
    (∀ p ∈ (tr.on_analysis r t fi).1.sessions, sessOk t p.2) ∧
    (∀ s ∈ (tr.on_analysis r t fi).2,
      FTime.le s.started_at s.last_seen_at = true) :=
  foldl_onAnalysisGo_ok t fi r.cats tr [] h (by simp)

theorem foldl_onAnalysisGo_last_seen (t : FTime) (fi : Option FrameInfo) :
    ∀ (cats : List CatActivity) (tr : SessionTracker) (acc : List FeedingSession)
      (p : String × FeedingSession),
      p ∈ (cats.foldl (onAnalysisGo t fi) (tr, acc)).1.sessions →
      p ∈ tr.sessions ∨ p.2.last_seen_at = t := by
  intro cats
  induction cats with
  | nil =>
    intro tr acc p hp
    exact Or.inl hp
  | cons c cs ih =>
    intro tr acc p hp
    rw [List.foldl_cons] at hp
    simp only [onAnalysisGo] at hp
    rcases ih _ _ p hp with h | h
    · exact onCat_last_seen_mem h
    · exact Or.inr h

theorem on_analysis_last_seen_mem {tr : SessionTracker} {r : IdentifyResult}
    {t : FTime} {fi : Option FrameInfo} {p : String × FeedingSession}
    (hp : p ∈ (tr.on_analysis r t fi).1.sessions) :
    p ∈ tr.sessions ∨ p.2.last_seen_at = t :=
  foldl_onAnalysisGo_last_seen t fi r.cats tr [] p hp

theorem foldl_onAnalysisGo_conservation (t : FTime) (fi : Option FrameInfo) :
    ∀ (cats : List CatActivity) (tr : SessionTracker)
      (acc : List FeedingSession) (n : ℕ),
      (tr.sessions.map Prod.fst).Nodup →
      (cats.foldl (onAnalysisGo t fi) (tr, acc)).1
          = (cats.foldl (onAnalysisOpensGo t fi) (tr, n)).1 ∧
      (cats.foldl (onAnalysisGo t fi) (tr, acc)).1.sessions.length
          + (cats.foldl (onAnalysisGo t fi) (tr, acc)).2.length + n
        = tr.sessions.length + acc.length
          + (cats.foldl (onAnalysisOpensGo t fi) (tr, n)).2 := by
  intro cats
  induction cats with
  | nil =>
    intro tr acc n hnd
    exact ⟨rfl, by simp [Nat.add_comm, Nat.add_assoc, Nat.add_left_comm]⟩
  | cons c cs ih =>
    intro tr acc n hnd
    rw [List.foldl_cons, List.foldl_cons]
    simp only [onAnalysisGo, onAnalysisOpensGo]
    have hcons := onCat_conservation t fi c hnd
    have hih := ih (tr.onCat t fi c).1 (acc ++ (tr.onCat t fi c).2)
      (n + onCatOpens tr.sessions c) (onCat_nodup t fi c hnd)
    refine ⟨hih.1, ?_⟩
    have h2 := hih.2
    simp only [List.length_append] at h2
    omega

theorem on_analysis_conservation {tr : SessionTracker} (r : IdentifyResult)
    (t : FTime) (fi : Option FrameInfo)
    (hnd : (tr.sessions.map Prod.fst).Nodup) :
    (tr.on_analysis r t fi).1.sessions.length + (tr.on_analysis r t fi).2.length
      = tr.sessions.length + onAnalysisOpens tr r t fi := by
  have h := foldl_onAnalysisGo_conservation t fi r.cats tr [] 0 hnd
  have h2 := h.2
  simp only [List.length_nil] at h2
  simpa [SessionTracker.on_analysis, onAnalysisOpens] using h2

/-! ### Characterization of `check_idle` -/

theorem length_filter_partition {α : Type} (p : α → Bool) (l : List α) :
    (l.filter p).length + (l.filter (fun a => ! p a)).length = l.length := by
  induction l with
  | nil => rfl
  | cons a t ih =>
    cases h : p a <;> simp [List.filter_cons, h] <;> omega

theorem foldl_checkIdleStep (now : FTime) :
    ∀ (m pre : Sessions) (τ : ℚ) (acc : List FeedingSession),
      ((pre ++ m).map Prod.fst).Nodup →
      (m.map Prod.fst).foldl (checkIdleStep now) (⟨τ, pre ++ m⟩, acc)
        = (⟨τ, pre ++ m.filter (fun p => ! FTime.timedOut now p.2.last_seen_at τ)⟩,
           acc ++ (m.filter (fun p => FTime.timedOut now p.2.last_seen_at τ)).map Prod.snd) := by
  intro m
  induction m with
  | nil =>
    intro pre τ acc hnd
    simp
  | cons q rest ih =>
    intro pre τ acc hnd
    obtain ⟨k, v⟩ := q
    have hnd' := hnd
    rw [List.map_append] at hnd'
    rw [List.nodup_append] at hnd'
    have hkpre : k ∉ pre.map Prod.fst := by
      intro hmem
      exact hnd'.2.2 hmem (by simp)
    have hkrest : k ∉ rest.map Prod.fst := by
      have := hnd'.2.1
      simp only [List.map_cons, List.nodup_cons] at this
      exact this.1
    have hget : dictGet (pre ++ (k, v) :: rest) k = some v := by
      rw [dictGet_append_of_not_mem hkpre]
      simp [dictGet]
    simp only [List.map_cons, List.foldl_cons]
    cases hto : FTime.timedOut now v.last_seen_at τ with
    | true =>
      have hstep : checkIdleStep now (⟨τ, pre ++ (k, v) :: rest⟩, acc) k
          = (⟨τ, pre ++ rest⟩, acc ++ [v]) := by
        simp only [checkIdleStep, hget, hto, if_pos]
        have hdel : dictDel (pre ++ (k, v) :: rest) k = pre ++ rest := by
          rw [dictDel_append, dictDel_of_not_mem hkpre]
          simp only [dictDel, List.filter_cons]
          rw [if_neg (by simp)]
          have := dictDel_of_not_mem hkrest
          simp only [dictDel] at this
          rw [this]
        rw [hdel]
      rw [hstep]
      have hnd2 : ((pre ++ rest).map Prod.fst).Nodup := by
        refine List.Nodup.sublist ?_ hnd
        refine List.Sublist.map _ ?_
        exact List.Sublist.append (List.Sublist.refl _) (List.sublist_cons_self _ _)
      rw [ih pre τ (acc ++ [v]) hnd2]
      simp [List.filter_cons, hto]
    | false =>
      have hstep : checkIdleStep now (⟨τ, pre ++ (k, v) :: rest⟩, acc)  k
          = (⟨τ, pre ++ (k, v) :: rest⟩, acc) := by
        simp only [checkIdleStep, hget, hto]
        simp
      rw [hstep]
      have hre : pre ++ (k, v) :: rest = (pre ++ [(k, v)]) ++ rest := by simp
      rw [hre]
      have hnd2 : (((pre ++ [(k, v)]) ++ rest).map Prod.fst).Nodup := by
        rw [← hre]
        exact hnd
      rw [ih (pre ++ [(k, v)]) τ acc hnd2]
      simp [List.filter_cons, hto]

theorem check_idle_spec (tr : SessionTracker) (now : FTime)
    (hnd : (tr.sessions.map Prod.fst).Nodup) :
    tr.check_idle now
      = (⟨tr.idle_timeout, tr.sessions.filter (fun p => ! FTime.timedOut now p.2.last_seen_at tr.idle_timeout)⟩,
         (tr.sessions.filter (fun p => FTime.timedOut now p.2.last_seen_at tr.idle_timeout)).map Prod.snd) := by
  have h := foldl_checkIdleStep now tr.sessions [] tr.idle_timeout []
    (by simpa using hnd)
  simp only [List.nil_append] at h
  simpa [SessionTracker.check_idle] using h

theorem check_idle_nodup {tr : SessionTracker} (now : FTime)
    (hnd : (tr.sessions.map Prod.fst).Nodup) :
    (((tr.check_idle now).1.sessions).map Prod.fst).Nodup := by
  rw [check_idle_spec tr now hnd]
  refine List.Nodup.sublist ?_ hnd
  exact List.Sublist.map _ (List.filter_sublist _)

theorem check_idle_timeout_eq {tr : SessionTracker} (now : FTime)
    (hnd : (tr.sessions.map Prod.fst).Nodup) :
    (tr.check_idle now).1.idle_timeout = tr.idle_timeout := by
  rw [check_idle_spec tr now hnd]

theorem check_idle_sessions_sub {tr : SessionTracker} {now : FTime}
    (hnd : (tr.sessions.map Prod.fst).Nodup) {p : String × FeedingSession}
    (hp : p ∈ (tr.check_idle now).1.sessions) : p ∈ tr.sessions := by
  rw [check_idle_spec tr now hnd] at hp
  exact List.mem_of_mem_filter hp

theorem check_idle_completed_mem {tr : SessionTracker} {now : FTime}
    (hnd : (tr.sessions.map Prod.fst).Nodup) {s : FeedingSession}
    (hs : s ∈ (tr.check_idle now).2) :
    (∃ p ∈ tr.sessions, p.2 = s) ∧
    FTime.timedOut now s.last_seen_at tr.idle_timeout = true := by
  rw [check_idle_spec tr now hnd] at hs
  rcases List.mem_map.1 hs with ⟨p, hp, hps⟩
  refine ⟨⟨p, List.mem_of_mem_filter hp, hps⟩, ?_⟩
  have := List.of_mem_filter hp
  rw [hps] at this
  exact this

theorem check_idle_conservation {tr : SessionTracker} (now : FTime)
    (hnd : (tr.sessions.map Prod.fst).Nodup) :
    (tr.check_idle now).1.sessions.length + (tr.check_idle now).2.length
      = tr.sessions.length := by
  rw [check_idle_spec tr now hnd]
  simp only [List.length_map]
  have := length_filter_partition
    (fun p : String × FeedingSession =>
      FTime.timedOut now p.2.last_seen_at tr.idle_timeout) tr.sessions
  omega

theorem check_idle_all_closed {tr : SessionTracker}
    (hnd : (tr.sessions.map Prod.fst).Nodup)
    (hfin : ∀ p ∈ tr.sessions, ∃ q, p.2.last_seen_at = FTime.fin q) :
    (tr.check_idle FTime.inf).1.sessions = [] ∧
    (tr.check_idle FTime.inf).2 = tr.sessions.map Prod.snd := by
  have hall : ∀ p ∈ tr.sessions,
      FTime.timedOut FTime.inf p.2.last_seen_at tr.idle_timeout = true := by
    intro p hp
    rcases hfin p hp with ⟨q, hq⟩
    rw [hq]
    rfl
  rw [check_idle_spec tr FTime.inf hnd]
  constructor
  · simp only [List.filter_eq_nil_iff]
    intro p hp
    simp [hall p hp]
  · have : tr.sessions.filter
        (fun p => FTime.timedOut FTime.inf p.2.last_seen_at tr.idle_timeout)
        = tr.sessions := List.filter_eq_self.2 (fun p hp => hall p hp)
    rw [this]

/-! ### Lemmas about runs of tracker calls -/

theorem foldl_runOpsGo_nodup :
    ∀ (ops : List TrackerOp) (tr : SessionTracker) (acc : List FeedingSession),
      (tr.sessions.map Prod.fst).Nodup →
      (((ops.foldl runOpsGo (tr, acc)).1.sessions).map Prod.fst).Nodup := by
  intro ops
  induction ops with
  | nil => intro tr acc h; simpa using h
  | cons op rest ih =>
    intro tr acc h
    rw [List.foldl_cons]
    simp only [runOpsGo]
    refine ih _ _ ?_
    cases op with
    | obs r t fi => exact on_analysis_nodup r t fi h
    | idle t => exact check_idle_nodup t h

theorem runOps_nodup (tr : SessionTracker) (ops : List TrackerOp)
    (h : (tr.sessions.map Prod.fst).Nodup) :
    (((runOps tr ops).1.sessions).map Prod.fst).Nodup :=
  foldl_runOpsGo_nodup ops tr [] h

theorem countP_le_one_of_nodup_keys {m : Sessions}
    (h : (m.map Prod.fst).Nodup) (name : String) :
    (m.filter (fun p => p.1 = name)).length ≤ 1 := by
  induction m with
  | nil => simp
  | cons q rest ih =>
    obtain ⟨a, b⟩ := q
    simp only [List.map_cons, List.nodup_cons] at h
    by_cases ha : a = name
    · subst ha
      have hnil : rest.filter (fun p => p.1 = a) = [] := by
        rw [List.filter_eq_nil_iff]
        intro p hp hpa
        exact h.1 (by
          simp only [decide_eq_true_eq] at hpa
          rw [← hpa]
          exact List.mem_map_of_mem Prod.fst hp)
      simp [List.filter_cons, hnil]
    · have := ih h.2
      simp [List.filter_cons, ha]
      omega

theorem foldl_runOpsGo_ok :
    ∀ (ops : List TrackerOp) (tr : SessionTracker) (acc : List FeedingSession)
      (T : FTime),
      (tr.sessions.map Prod.fst).Nodup →
      (∀ p ∈ tr.sessions, sessOk T p.2) →
      (∀ s ∈ acc, FTime.le s.started_at s.last_seen_at = true) →
      List.Chain (fun a b => FTime.le a b = true) T (ops.map TrackerOp.time) →
      (∀ p ∈ (ops.foldl runOpsGo (tr, acc)).1.sessions,
        FTime.le p.2.started_at p.2.last_seen_at = true) ∧
      (∀ s ∈ (ops.foldl runOpsGo (tr, acc)).2,
        FTime.le s.started_at s.last_seen_at = true) := by
  intro ops
  induction ops with
  | nil =>
    intro tr acc T hnd hok hacc _
    exact ⟨fun p hp => (hok p hp).1, hacc⟩
  | cons op rest ih =>
    intro tr acc T hnd hok hacc hchain
    rw [List.map_cons, List.chain_cons] at hchain
    rw [List.foldl_cons]
    simp only [runOpsGo]
    have hok' : ∀ p ∈ tr.sessions, sessOk op.time p.2 :=
      fun p hp => sessOk_mono (hok p hp) hchain.1
    cases op with
    | obs r t fi =>
      have hstep := on_analysis_ok r t fi hok'
      refine ih _ _ t (on_analysis_nodup r t fi hnd) hstep.1 ?_ hchain.2
      intro s hs
      rcases List.mem_append.1 hs with hs | hs
      · exact hacc s hs
      · exact hstep.2 s hs
    | idle t =>
      have hsess : ∀ p ∈ (tr.check_idle t).1.sessions, sessOk t p.2 :=
        fun p hp => hok' p (check_idle_sessions_sub hnd hp)
      refine ih _ _ t (check_idle_nodup t hnd) hsess ?_ hchain.2
      intro s hs
      rcases List.mem_append.1 hs with hs | hs
      · exact hacc s hs
      · rcases (check_idle_completed_mem hnd hs).1 with ⟨p, hp, hps⟩
        rw [← hps]
        exact (hok' p hp).1

/-! ### Branch equations and invariants for `replayStep` -/

theorem replayStep_no_img (cd : ℚ) (cl : Entry → Option IdentifyResult)
    (st : ReplayState) (e : Entry) (h : e.img_present = false) :
    replayStep cd cl st e = st := by
  simp [replayStep, h]

theorem replayStep_cooled (cd : ℚ) (cl : Entry → Option IdentifyResult)
    (st : ReplayState) (e : Entry) (h1 : e.img_present = true)
    (h2 : FTime.subLt e.timestamp st.last_call cd = true) :
    replayStep cd cl st e = idleSwept st e.timestamp := by
  simp [replayStep, idleSwept, h1, h2]

theorem replayStep_fail (cd : ℚ) (cl : Entry → Option IdentifyResult)
    (st : ReplayState) (e : Entry) (h1 : e.img_present = true)
    (h2 : FTime.subLt e.timestamp st.last_call cd = false)
    (h3 : cl e = none) :
    replayStep cd cl st e =
      { idleSwept st e.timestamp with last_call := e.timestamp, errors := st.errors + 1 } := by
  simp [replayStep, idleSwept, h1, h2, h3]

theorem replayStep_classified (cd : ℚ) (cl : Entry → Option IdentifyResult)
    (st : ReplayState) (e : Entry) (r : IdentifyResult)
    (h1 : e.img_present = true)
    (h2 : FTime.subLt e.timestamp st.last_call cd = false)
    (h3 : cl e = some r) :
    replayStep cd cl st e =
      { obsApplied (idleSwept st e.timestamp) r e.timestamp (some ⟨e.filename, e.timestamp⟩) with last_call := e.timestamp } := by
  simp [replayStep, idleSwept, obsApplied, h1, h2, h3, List.append_assoc]

theorem replayStep_inv {cd : ℚ} {cl : Entry → Option IdentifyResult}
    {st : ReplayState} {e : Entry} (hinv : replayInv st)
    (hts : ∃ q, e.timestamp = FTime.fin q) :
    replayInv (replayStep cd cl st e) := by
  obtain ⟨hnd, hfin⟩ := hinv
  have hswept : replayInv (idleSwept st e.timestamp) := by
    refine ⟨check_idle_nodup _ hnd, ?_⟩
    intro p hp
    exact hfin p (check_idle_sessions_sub hnd hp)
  by_cases h1 : e.img_present = true
  · by_cases h2 : FTime.subLt e.timestamp st.last_call cd = true
    · rw [replayStep_cooled cd cl st e h1 h2]
      exact hswept
    · rw [Bool.not_eq_true] at h2
      cases h3 : cl e with
      | none =>
        rw [replayStep_fail cd cl st e h1 h2 h3]
        exact hswept
      | some r =>
        rw [replayStep_classified cd cl st e r h1 h2 h3]
        refine ⟨on_analysis_nodup r _ _ hswept.1, ?_⟩
        intro p hp
        rcases on_analysis_last_seen_mem hp with h | h
        · exact hswept.2 p h
        · rcases hts with ⟨q, hq⟩
          exact ⟨q, by rw [h, hq]⟩
  · rw [Bool.not_eq_true] at h1
    rw [replayStep_no_img cd cl st e h1]
    exact ⟨hnd, hfin⟩

theorem replayStep_conservation (cd : ℚ) (cl : Entry → Option IdentifyResult)
    (st : ReplayState) (e : Entry)
    (hnd : (st.tracker.sessions.map Prod.fst).Nodup) :
    (replayStep cd cl st e).all_completed.length
        + (replayStep cd cl st e).tracker.sessions.length
      = st.all_completed.length + st.tracker.sessions.length
        + replayStepOpens cd cl st e := by
  have hidle := @check_idle_conservation st.tracker e.timestamp hnd
  by_cases h1 : e.img_present = true
  · by_cases h2 : FTime.subLt e.timestamp st.last_call cd = true
    · rw [replayStep_cooled cd cl st e h1 h2]
      simp only [replayStepOpens, h1, h2, idleSwept, List.length_append]
      simp
      omega
    · rw [Bool.not_eq_true] at h2
      cases h3 : cl e with
      | none =>
        rw [replayStep_fail cd cl st e h1 h2 h3]
        simp only [replayStepOpens, h1, h2, h3, idleSwept, List.length_append]
        simp
        omega
      | some r =>
        rw [replayStep_classified cd cl st e r h1 h2 h3]
        have hobs := @on_analysis_conservation (st.tracker.check_idle e.timestamp).1
          r e.timestamp (some ⟨e.filename, e.timestamp⟩) (check_idle_nodup _ hnd)
        simp only [replayStepOpens, h1, h2, h3, obsApplied, idleSwept, List.length_append]
        simp
        omega
  · rw [Bool.not_eq_true] at h1
    rw [replayStep_no_img cd cl st e h1]
    simp [replayStepOpens, h1]

theorem replayStep_nodup {cd : ℚ} {cl : Entry → Option IdentifyResult}
    {st : ReplayState} {e : Entry}
    (hnd : (st.tracker.sessions.map Prod.fst).Nodup) :
    (((replayStep cd cl st e).tracker.sessions).map Prod.fst).Nodup := by
  by_cases h1 : e.img_present = true
  · by_cases h2 : FTime.subLt e.timestamp st.last_call cd = true
    · rw [replayStep_cooled cd cl st e h1 h2]
      exact check_idle_nodup _ hnd
    · rw [Bool.not_eq_true] at h2
      cases h3 : cl e with
      | none =>
        rw [replayStep_fail cd cl st e h1 h2 h3]
        exact check_idle_nodup _ hnd
      | some r =>
        rw [replayStep_classified cd cl st e r h1 h2 h3]
        exact on_analysis_nodup r _ _ (check_idle_nodup _ hnd)
  · rw [Bool.not_eq_true] at h1
    rw [replayStep_no_img cd cl st e h1]
    exact hnd

theorem replayLoop_inv (cd : ℚ) (cl : Entry → Option IdentifyResult) :
    ∀ (entries : List Entry) (st : ReplayState), replayInv st →
      (∀ e ∈ entries, ∃ q, e.timestamp = FTime.fin q) →
      replayInv (replayLoop cd cl st entries) := by
  intro entries
  induction entries with
  | nil => intro st h _; exact h
  | cons e rest ih =>
    intro st h hts
    rw [replayLoop, List.foldl_cons]
    exact ih _ (replayStep_inv h (hts e (by simp)))
      (fun x hx => hts x (List.mem_cons_of_mem _ hx))

theorem replayLoop_opens (cd : ℚ) (cl : Entry → Option IdentifyResult) :
    ∀ (entries : List Entry) (st : ReplayState) (n : ℕ),
      ((st.tracker.sessions.map Prod.fst).Nodup) →
      (entries.foldl (replayOpensGo cd cl) (st, n)).1
          = replayLoop cd cl st entries ∧
      (replayLoop cd cl st entries).all_completed.length
          + (replayLoop cd cl st entries).tracker.sessions.length + n
        = st.all_completed.length + st.tracker.sessions.length
          + (entries.foldl (replayOpensGo cd cl) (st, n)).2 := by
  intro entries
  induction entries with
  | nil =>
    intro st n hnd
    exact ⟨rfl, by simp [replayLoop, Nat.add_comm, Nat.add_assoc, Nat.add_left_comm]⟩
  | cons e rest ih =>
    intro st n hnd
    rw [replayLoop, List.foldl_cons, List.foldl_cons]
    simp only [replayOpensGo]
    have hstep := replayStep_conservation cd cl st e hnd
    have hih := ih (replayStep cd cl st e) (n + replayStepOpens cd cl st e)
      (replayStep_nodup hnd)
    rw [replayLoop] at hih
    refine ⟨hih.1, ?_⟩
    have h2 := hih.2
    omega

theorem filter_key_dictSet_not_mem {m : Sessions} {k : String}
    {v : FeedingSession} (h : k ∉ m.map Prod.fst) :
    (dictSet m k v).filter (fun q => q.1 = k) = [(k, v)] := by
  induction m with
  | nil => simp [dictSet]
  | cons p rest ih =>
    obtain ⟨a, b⟩ := p
    simp only [List.map_cons, List.mem_cons] at h
    push_neg at h
    have hp : a ≠ k := Ne.symm h.1
    simp [dictSet, hp, List.filter_cons, ih h.2]

/-! ### Claim theorems -/

/-- Claim C1: for every sequence of observations and idle checks applied
to a `SessionTracker` in nondecreasing timestamp order, at most one open
session exists per cat name at every point: after every prefix of the
call sequence, the open-session map contains at most one session for any
given name. -/
theorem C1_at_most_one_open_session (τ : ℚ) (ops p : List TrackerOp)
    (name : String)
    (hchain : List.Chain' (fun a b => FTime.le a.time b.time = true) ops)
    (hpre : p <+: ops) :
    ((runOps (SessionTracker.mk0 τ) p).1.sessions.filter
        (fun q => q.1 = name)).length ≤ 1 := by
  have hnd : (((runOps (SessionTracker.mk0 τ) p).1.sessions).map Prod.fst).Nodup :=
    runOps_nodup _ _ (by simp [SessionTracker.mk0])
  exact countP_le_one_of_nodup_keys hnd name

/-- Witness for C1 at a concrete call sequence. -/
theorem C1_at_most_one_open_session_witness :
    ((runOps (SessionTracker.mk0 60)
        [TrackerOp.obs (oneCat "A" Activity.eating) (FTime.fin 100) none,
         TrackerOp.idle (FTime.fin 200)]).1.sessions.filter
        (fun q => q.1 = "A")).length ≤ 1 :=
  C1_at_most_one_open_session 60
    [TrackerOp.obs (oneCat "A" Activity.eating) (FTime.fin 100) none,
     TrackerOp.idle (FTime.fin 200)]
    [TrackerOp.obs (oneCat "A" Activity.eating) (FTime.fin 100) none,
     TrackerOp.idle (FTime.fin 200)]
    "A" (List.chain'_cons.2 ⟨by with_unfolding_all decide, List.chain'_singleton _⟩)
    List.prefix_rfl

/-- Claim C2: an observation of an in-session entity `E` with a
different engaged activity `b` returns exactly one completed session
(the old one, unchanged), and leaves `E` with exactly one open session
with activity `b` and `started_at = last_seen_at = t`: the step is
atomic, `E` is never observably idle after the call. -/
theorem C2_activity_transition_atomic
    (tr : SessionTracker) (E : String) (s : FeedingSession) (a b : Activity)
    (r : IdentifyResult) (t : FTime) (fi : Option FrameInfo)
    (hget : dictGet tr.sessions E = some s)
    (ha : a.engaged = true) (hb : b.engaged = true)
    (hsa : s.activity = a.value) (hab : b.value ≠ a.value)
    (hr : r.cats = [⟨E, b⟩]) :
    (tr.on_analysis r t fi).2 = [s] ∧
    dictGet (tr.on_analysis r t fi).1.sessions E = some ⟨E, b.value, t, t, fi.toList⟩ ∧
    ((tr.on_analysis r t fi).1.sessions.filter (fun q => q.1 = E)).length = 1 := by
  have hne : s.activity ≠ b.value := by
    rw [hsa]
    exact Ne.symm hab
  have hcat : tr.on_analysis r t fi = tr.onCat t fi ⟨E, b⟩ :=
    on_analysis_singleton tr r t fi ⟨E, b⟩ hr
  rw [hcat, onCat_engaged_change tr t fi ⟨E, b⟩ s hb hget hne]
  refine ⟨rfl, ?_, ?_⟩
  · exact dictGet_dictSet_self _ _ _
  · have hnotmem : E ∉ (dictDel tr.sessions E).map Prod.fst :=
      not_mem_keys_dictDel _ _
    simp only []
    rw [filter_key_dictSet_not_mem hnotmem]
    rfl

/-- Witness for C2: cat A eating at t=100, drinking at t=110. -/
theorem C2_activity_transition_atomic_witness :
    (((SessionTracker.mk0 60).on_analysis (oneCat "A" Activity.eating)
        (FTime.fin 100) none).1.on_analysis (oneCat "A" Activity.drinking)
        (FTime.fin 110) none).2
      = [⟨"A", "eating", FTime.fin 100, FTime.fin 100, []⟩] ∧
    dictGet (((SessionTracker.mk0 60).on_analysis (oneCat "A" Activity.eating)
        (FTime.fin 100) none).1.on_analysis (oneCat "A" Activity.drinking)
        (FTime.fin 110) none).1.sessions "A"
      = some ⟨"A", "drinking", FTime.fin 110, FTime.fin 110, []⟩ ∧
    ((((SessionTracker.mk0 60).on_analysis (oneCat "A" Activity.eating)
        (FTime.fin 100) none).1.on_analysis (oneCat "A" Activity.drinking)
        (FTime.fin 110) none).1.sessions.filter (fun q => q.1 = "A")).length = 1 :=
  C2_activity_transition_atomic
    ((SessionTracker.mk0 60).on_analysis (oneCat "A" Activity.eating)
      (FTime.fin 100) none).1
    "A" ⟨"A", "eating", FTime.fin 100, FTime.fin 100, []⟩
    Activity.eating Activity.drinking (oneCat "A" Activity.drinking)
    (FTime.fin 110) none (by with_unfolding_all decide) (by with_unfolding_all decide)
    (by with_unfolding_all decide) (by with_unfolding_all decide)
    (by with_unfolding_all decide) (by with_unfolding_all decide)

/-- Claim C3: `check_idle(now)` removes and returns as completed exactly
the open sessions with `now - last_seen_at` strictly greater than the
idle timeout; all others are kept unchanged; in particular a gap exactly
equal to the timeout does not close a session. -/
theorem C3_check_idle_strict_timeout (tr : SessionTracker) (n : ℚ)
    (hnd : (tr.sessions.map Prod.fst).Nodup) :
    (tr.check_idle (FTime.fin n)).2
        = (tr.sessions.filter
            (fun p => FTime.timedOut (FTime.fin n) p.2.last_seen_at tr.idle_timeout)).map Prod.snd ∧
    (tr.check_idle (FTime.fin n)).1.sessions
        = tr.sessions.filter
            (fun p => ! FTime.timedOut (FTime.fin n) p.2.last_seen_at tr.idle_timeout) ∧
    (∀ l : ℚ,
      (FTime.timedOut (FTime.fin n) (FTime.fin l) tr.idle_timeout = true
        ↔ tr.idle_timeout < n - l)) ∧
    (∀ p ∈ tr.sessions, ∀ l : ℚ, p.2.last_seen_at = FTime.fin l →
      n - l = tr.idle_timeout →
      p ∈ (tr.check_idle (FTime.fin n)).1.sessions) := by
  have hspec := check_idle_spec tr (FTime.fin n) hnd
  refine ⟨by rw [hspec], by rw [hspec], ?_, ?_⟩
  · intro l
    simp [FTime.timedOut]
  · intro p hp l hl heq
    rw [hspec]
    simp only []
    refine List.mem_filter.2 ⟨hp, ?_⟩
    simp [FTime.timedOut, hl, heq]

/-- Witness for C3 at a concrete tracker with two sessions, one at the
exact-equality boundary. -/
theorem C3_check_idle_strict_timeout_witness :
    ((⟨15, [("A", ⟨"A", "eating", FTime.fin 100, FTime.fin 108, []⟩),
            ("B", ⟨"B", "drinking", FTime.fin 100, FTime.fin 100, []⟩)]⟩ :
        SessionTracker).check_idle (FTime.fin 120)).2
      = ([("B", (⟨"B", "drinking", FTime.fin 100, FTime.fin 100, []⟩ : FeedingSession))]).map Prod.snd ∧
    (((⟨15, [("A", ⟨"A", "eating", FTime.fin 100, FTime.fin 108, []⟩),
            ("B", ⟨"B", "drinking", FTime.fin 100, FTime.fin 100, []⟩)]⟩ :
        SessionTracker).check_idle (FTime.fin 120)).1.sessions
      = [("A", ⟨"A", "eating", FTime.fin 100, FTime.fin 108, []⟩)]) := by
  have h := C3_check_idle_strict_timeout
    (⟨15, [("A", ⟨"A", "eating", FTime.fin 100, FTime.fin 108, []⟩),
           ("B", ⟨"B", "drinking", FTime.fin 100, FTime.fin 100, []⟩)]⟩ :
      SessionTracker) 120 (by with_unfolding_all decide)
  refine ⟨?_, ?_⟩
  · rw [h.1]
    with_unfolding_all decide
  · rw [h.2.1]
    with_unfolding_all decide

theorem runOps_passive (E : String) :
    ∀ (ops : List TrackerOp) (tr : SessionTracker),
      (∀ op ∈ ops, ∃ r2 t2 fi2, op = TrackerOp.obs r2 t2 fi2 ∧
        r2.cats = [⟨E, Activity.present⟩]) →
      (runOps tr ops).2 = [] ∧
      ((dictGet (runOps tr ops).1.sessions E).map
          (fun s => (s.activity, s.started_at, s.frames))
        = (dictGet tr.sessions E).map
          (fun s => (s.activity, s.started_at, s.frames))) ∧
      (∀ k, k ≠ E → dictGet (runOps tr ops).1.sessions k = dictGet tr.sessions k) := by
  intro ops
  induction ops with
  | nil =>
    intro tr _
    exact ⟨rfl, rfl, fun k _ => rfl⟩
  | cons op rest ih =>
    intro tr hops
    rcases hops op (by simp) with ⟨r2, t2, fi2, hop, hr2⟩
    subst hop
    have hrest : ∀ op ∈ rest, ∃ r2 t2 fi2, op = TrackerOp.obs r2 t2 fi2 ∧
        r2.cats = [⟨E, Activity.present⟩] :=
      fun x hx => hops x (List.mem_cons_of_mem _ hx)
    have hcat : tr.on_analysis r2 t2 fi2 = tr.onCat t2 fi2 ⟨E, Activity.present⟩ :=
      on_analysis_singleton tr r2 t2 fi2 _ hr2
    cases hget : dictGet tr.sessions E with
    | none =>
      have hstep : tr.on_analysis r2 t2 fi2 = (tr, []) := by
        rw [hcat, onCat_present_idle tr t2 fi2 ⟨E, Activity.present⟩ rfl hget]
      have hrun : runOps tr (TrackerOp.obs r2 t2 fi2 :: rest) = runOps tr rest := by
        simp [runOps, runOpsGo, applyOp, hstep]
      rw [hrun]
      have hih := ih tr hrest
      rw [hget] at hih
      exact hih
    | some s =>
      have hstep : tr.on_analysis r2 t2 fi2
          = ({ tr with sessions := dictSet tr.sessions E (touchSession s t2) }, []) := by
        rw [hcat, onCat_present_open tr t2 fi2 ⟨E, Activity.present⟩ s rfl hget]
      have hrun : runOps tr (TrackerOp.obs r2 t2 fi2 :: rest)
          = runOps { tr with sessions := dictSet tr.sessions E (touchSession s t2) } rest := by
        simp [runOps, runOpsGo, applyOp, hstep]
      rw [hrun]
      have hih := ih { tr with sessions := dictSet tr.sessions E (touchSession s t2) } hrest
      refine ⟨hih.1, ?_, ?_⟩
      · rw [hih.2.1]
        simp only [dictGet_dictSet_self, hget, Option.map_some]
        rfl
      · intro k hk
        rw [hih.2.2 k hk]
        simp only [dictGet_dictSet_ne tr.sessions E k _ hk]

/-- Claim C4: a passive (`present`) observation of `E` at `t` only
advances the last-observed timestamp of an open session for `E`
(activity, start timestamp and frame list unchanged, nothing completed),
and is a no-op when `E` is idle; iterating arbitrarily many passive
observations never changes activity, start, or frames of `E`'s session,
completes nothing, and leaves every other entity's entry untouched. -/
theorem C4_passive_observation (tr : SessionTracker) (E : String)
    (r : IdentifyResult) (t : FTime) (fi : Option FrameInfo)
    (hr : r.cats = [⟨E, Activity.present⟩]) :
    (∀ s, dictGet tr.sessions E = some s →
      tr.on_analysis r t fi
        = ({ tr with sessions := dictSet tr.sessions E (touchSession s t) }, [])) ∧
    (dictGet tr.sessions E = none → tr.on_analysis r t fi = (tr, [])) ∧
    (∀ ops : List TrackerOp,
      (∀ op ∈ ops, ∃ r2 t2 fi2, op = TrackerOp.obs r2 t2 fi2 ∧
        r2.cats = [⟨E, Activity.present⟩]) →
      (runOps tr ops).2 = [] ∧
      ((dictGet (runOps tr ops).1.sessions E).map
          (fun s => (s.activity, s.started_at, s.frames))
        = (dictGet tr.sessions E).map
          (fun s => (s.activity, s.started_at, s.frames))) ∧
      (∀ k, k ≠ E → dictGet (runOps tr ops).1.sessions k = dictGet tr.sessions k)) := by
  have hcat : tr.on_analysis r t fi = tr.onCat t fi ⟨E, Activity.present⟩ :=
    on_analysis_singleton tr r t fi _ hr
  refine ⟨?_, ?_, fun ops hops => runOps_passive E ops tr hops⟩
  · intro s hget
    rw [hcat, onCat_present_open tr t fi ⟨E, Activity.present⟩ s rfl hget]
  · intro hget
    rw [hcat, onCat_present_idle tr t fi ⟨E, Activity.present⟩ rfl hget]

/-- Witness for C4: cat A in an eating session observed `present`. -/
theorem C4_passive_observation_witness :
    (∀ s, dictGet [("A", (⟨"A", "eating", FTime.fin 100, FTime.fin 100, []⟩ : FeedingSession))] "A" = some s →
      ((⟨60, [("A", ⟨"A", "eating", FTime.fin 100, FTime.fin 100, []⟩)]⟩ : SessionTracker).on_analysis
          (oneCat "A" Activity.present) (FTime.fin 105) none)
        = ({ (⟨60, [("A", ⟨"A", "eating", FTime.fin 100, FTime.fin 100, []⟩)]⟩ : SessionTracker) with
            sessions := dictSet [("A", ⟨"A", "eating", FTime.fin 100, FTime.fin 100, []⟩)] "A" (touchSession s (FTime.fin 105)) }, [])) ∧
    (dictGet [("A", (⟨"A", "eating", FTime.fin 100, FTime.fin 100, []⟩ : FeedingSession))] "A" = none →
      ((⟨60, [("A", ⟨"A", "eating", FTime.fin 100, FTime.fin 100, []⟩)]⟩ : SessionTracker).on_analysis
          (oneCat "A" Activity.present) (FTime.fin 105) none)
        = ((⟨60, [("A", ⟨"A", "eating", FTime.fin 100, FTime.fin 100, []⟩)]⟩ : SessionTracker), [])) ∧
    (∀ ops : List TrackerOp,
      (∀ op ∈ ops, ∃ r2 t2 fi2, op = TrackerOp.obs r2 t2 fi2 ∧
        r2.cats = [⟨"A", Activity.present⟩]) →
      (runOps (⟨60, [("A", ⟨"A", "eating", FTime.fin 100, FTime.fin 100, []⟩)]⟩ : SessionTracker) ops).2 = [] ∧
      ((dictGet (runOps (⟨60, [("A", ⟨"A", "eating", FTime.fin 100, FTime.fin 100, []⟩)]⟩ : SessionTracker) ops).1.sessions "A").map
          (fun s => (s.activity, s.started_at, s.frames))
        = (dictGet [("A", ⟨"A", "eating", FTime.fin 100, FTime.fin 100, []⟩)] "A").map
          (fun s => (s.activity, s.started_at, s.frames))) ∧
      (∀ k, k ≠ "A" →
        dictGet (runOps (⟨60, [("A", ⟨"A", "eating", FTime.fin 100, FTime.fin 100, []⟩)]⟩ : SessionTracker) ops).1.sessions k
          = dictGet [("A", ⟨"A", "eating", FTime.fin 100, FTime.fin 100, []⟩)] k)) :=
  C4_passive_observation
    (⟨60, [("A", ⟨"A", "eating", FTime.fin 100, FTime.fin 100, []⟩)]⟩ : SessionTracker)
    "A" (oneCat "A" Activity.present) (FTime.fin 105) none (by with_unfolding_all decide)

/-- Claim C5: under the nondecreasing-timestamp precondition, every
session (open or completed) has `last_seen_at - started_at ≥ 0`, and
every session closed by an idle check at finite time `n` satisfies
`n - last_seen_at ≥ idle_timeout` at the moment of closing. -/
theorem C5_duration_invariant (τ : ℚ) (ops : List TrackerOp)
    (hchain : List.Chain' (fun a b => FTime.le a.time b.time = true) ops) :
    (∀ s ∈ (runOps (SessionTracker.mk0 τ) ops).2,
      FTime.le s.started_at s.last_seen_at = true) ∧
    (∀ p ∈ (runOps (SessionTracker.mk0 τ) ops).1.sessions,
      FTime.le p.2.started_at p.2.last_seen_at = true) ∧
    (∀ (n l : ℚ) (s : FeedingSession),
      s ∈ ((runOps (SessionTracker.mk0 τ) ops).1.check_idle (FTime.fin n)).2 →
      s.last_seen_at = FTime.fin l →
      (runOps (SessionTracker.mk0 τ) ops).1.idle_timeout ≤ n - l) := by
  have hnd0 : (((SessionTracker.mk0 τ).sessions).map Prod.fst).Nodup := by
    simp [SessionTracker.mk0]
  have hnd := runOps_nodup (SessionTracker.mk0 τ) ops hnd0
  have hclose : ∀ (n l : ℚ) (s : FeedingSession),
      s ∈ ((runOps (SessionTracker.mk0 τ) ops).1.check_idle (FTime.fin n)).2 →
      s.last_seen_at = FTime.fin l →
      (runOps (SessionTracker.mk0 τ) ops).1.idle_timeout ≤ n - l := by
    intro n l s hs hl
    have htimed := (check_idle_completed_mem hnd hs).2
    rw [hl] at htimed
    simp only [FTime.timedOut, decide_eq_true_eq] at htimed
    linarith
  cases ops with
  | nil =>
    refine ⟨?_, ?_, hclose⟩
    · intro s hs
      simp [runOps] at hs
    · intro p hp
      simp [runOps, SessionTracker.mk0] at hp
  | cons op rest =>
    have hch : List.Chain (fun a b => FTime.le a.time b.time = true) op rest := hchain
    have hanchor : List.Chain (fun a b => FTime.le a b = true) op.time
        ((op :: rest).map TrackerOp.time) := by
      rw [List.map_cons]
      exact List.Chain.cons (FTime.le_refl _) ((List.chain_map TrackerOp.time).2 hch)
    have h := foldl_runOpsGo_ok (op :: rest) (SessionTracker.mk0 τ) [] op.time
      hnd0 (by simp [SessionTracker.mk0]) (by simp) hanchor
    exact ⟨h.2, h.1, hclose⟩

/-- Witness for C5 at a concrete nondecreasing call sequence. -/
theorem C5_duration_invariant_witness :
    (∀ s ∈ (runOps (SessionTracker.mk0 60)
        [TrackerOp.obs (oneCat "A" Activity.eating) (FTime.fin 100) none,
         TrackerOp.idle (FTime.fin 200)]).2,
      FTime.le s.started_at s.last_seen_at = true) ∧
    (∀ p ∈ (runOps (SessionTracker.mk0 60)
        [TrackerOp.obs (oneCat "A" Activity.eating) (FTime.fin 100) none,
         TrackerOp.idle (FTime.fin 200)]).1.sessions,
      FTime.le p.2.started_at p.2.last_seen_at = true) ∧
    (∀ (n l : ℚ) (s : FeedingSession),
      s ∈ ((runOps (SessionTracker.mk0 60)
        [TrackerOp.obs (oneCat "A" Activity.eating) (FTime.fin 100) none,
         TrackerOp.idle (FTime.fin 200)]).1.check_idle (FTime.fin n)).2 →
      s.last_seen_at = FTime.fin l →
      (runOps (SessionTracker.mk0 60)
        [TrackerOp.obs (oneCat "A" Activity.eating) (FTime.fin 100) none,
         TrackerOp.idle (FTime.fin 200)]).1.idle_timeout ≤ n - l) :=
  C5_duration_invariant 60
    [TrackerOp.obs (oneCat "A" Activity.eating) (FTime.fin 100) none,
     TrackerOp.idle (FTime.fin 200)]
    (List.chain'_cons.2 ⟨by with_unfolding_all decide, List.chain'_singleton _⟩)

/-- Claim C6: cooldown is consumed by classification attempts, not
successes.  When a frame passes the gate, `last_call` is set to the
frame's timestamp whatever the classifier returns; on a failed call the
tracker is not touched beyond the idle sweep (`on_analysis` not
invoked), only the error counter increments; and any later frame whose
gap to this attempt is strictly below the cooldown is not classified,
regardless of whether this attempt succeeded. -/
theorem C6_cooldown_consumed_by_attempts (cd : ℚ)
    (cl : Entry → Option IdentifyResult) (st : ReplayState) (e : Entry)
    (h1 : e.img_present = true)
    (h2 : FTime.subLt e.timestamp st.last_call cd = false) :
    ((replayStep cd cl st e).last_call = e.timestamp) ∧
    (cl e = none →
      replayStep cd cl st e
        = { idleSwept st e.timestamp with last_call := e.timestamp, errors := st.errors + 1 }) ∧
    (∀ (st2 : ReplayState) (e2 : Entry) (x x2 : ℚ),
      st2.last_call = e.timestamp → e.timestamp = FTime.fin x →
      e2.timestamp = FTime.fin x2 → x2 - x < cd → e2.img_present = true →
      replayStep cd cl st2 e2 = idleSwept st2 e2.timestamp) := by
  refine ⟨?_, ?_, ?_⟩
  · cases h3 : cl e with
    | none => rw [replayStep_fail cd cl st e h1 h2 h3]
    | some r => rw [replayStep_classified cd cl st e r h1 h2 h3]
  · intro h3
    exact replayStep_fail cd cl st e h1 h2 h3
  · intro st2 e2 x x2 hlast hx hx2 hgap h2img
    have hcool : FTime.subLt e2.timestamp st2.last_call cd = true := by
      rw [hx2, hlast, hx]
      simp [FTime.subLt, hgap]
    exact replayStep_cooled cd cl st2 e2 h2img hcool

/-- Witness for C6: a failing classification attempt at t=105 with
cooldown 30 and the previous attempt at t=0. -/
theorem C6_cooldown_consumed_by_attempts_witness :
    ((replayStep 30 classifyFail (⟨SessionTracker.mk0 60, [], FTime.fin 0, 0⟩ : ReplayState)
        (⟨"f105.jpg", FTime.fin 105, 6000, true⟩ : Entry)).last_call = FTime.fin 105) ∧
    (classifyFail (⟨"f105.jpg", FTime.fin 105, 6000, true⟩ : Entry) = none →
      replayStep 30 classifyFail (⟨SessionTracker.mk0 60, [], FTime.fin 0, 0⟩ : ReplayState)
          (⟨"f105.jpg", FTime.fin 105, 6000, true⟩ : Entry)
        = { idleSwept (⟨SessionTracker.mk0 60, [], FTime.fin 0, 0⟩ : ReplayState) (FTime.fin 105) with
            last_call := FTime.fin 105, errors := 0 + 1 }) ∧
    (∀ (st2 : ReplayState) (e2 : Entry) (x x2 : ℚ),
      st2.last_call = FTime.fin 105 → (FTime.fin 105 : FTime) = FTime.fin x →
      e2.timestamp = FTime.fin x2 → x2 - x < 30 → e2.img_present = true →
      replayStep 30 classifyFail st2 e2 = idleSwept st2 e2.timestamp) := by
  have h := C6_cooldown_consumed_by_attempts 30 classifyFail
    (⟨SessionTracker.mk0 60, [], FTime.fin 0, 0⟩ : ReplayState)
    (⟨"f105.jpg", FTime.fin 105, 6000, true⟩ : Entry)
    (by with_unfolding_all decide) (by with_unfolding_all decide)
  exact h

/-- Counterexample to C7 as stated: with cooldown 30 and the previous
classification attempt at t=100, the frame at t=130 has elapsed time
exactly equal to the cooldown (not strictly greater), yet it IS sent to
the classifier: the attempt is made (`errors` counts attempts under the
always-failing classifier) and `last_call` is updated. -/
theorem C7_counterexample :
    (replayStep 30 classifyFail (⟨SessionTracker.mk0 60, [], FTime.fin 100, 0⟩ : ReplayState)
        (⟨"f130.jpg", FTime.fin 130, 6000, true⟩ : Entry)).errors = 1 ∧
    (replayStep 30 classifyFail (⟨SessionTracker.mk0 60, [], FTime.fin 100, 0⟩ : ReplayState)
        (⟨"f130.jpg", FTime.fin 130, 6000, true⟩ : Entry)).last_call = FTime.fin 130 ∧
    ¬ ((30 : ℚ) < 130 - 100) := by
  refine ⟨?_, ?_, by norm_num⟩
  · with_unfolding_all decide
  · with_unfolding_all decide

/-- Amended C7: a motion frame with an existing image is sent for
classification iff the elapsed time since the last classification
attempt is at least the cooldown (`>=`, not strictly greater), and only
in that case is `last_call` updated; a frame with elapsed time strictly
below the cooldown only triggers the idle sweep. -/
theorem C7_cooldown_boundary (cd : ℚ) (cl : Entry → Option IdentifyResult)
    (st : ReplayState) (e : Entry) (x y : ℚ)
    (h1 : e.img_present = true) (hx : e.timestamp = FTime.fin x)
    (hy : st.last_call = FTime.fin y) :
    (x - y < cd →
      replayStep cd cl st e = idleSwept st e.timestamp ∧
      (replayStep cd cl st e).last_call = st.last_call ∧
      (replayStep cd cl st e).errors = st.errors) ∧
    (cd ≤ x - y →
      (replayStep cd cl st e).last_call = e.timestamp ∧
      (cl e = none → (replayStep cd cl st e).errors = st.errors + 1) ∧
      (∀ r, cl e = some r →
        replayStep cd cl st e
          = { obsApplied (idleSwept st e.timestamp) r e.timestamp (some ⟨e.filename, e.timestamp⟩) with last_call := e.timestamp })) := by
  constructor
  · intro hlt
    have hcool : FTime.subLt e.timestamp st.last_call cd = true := by
      rw [hx, hy]
      simp [FTime.subLt, hlt]
    rw [replayStep_cooled cd cl st e h1 hcool]
    exact ⟨rfl, rfl, rfl⟩
  · intro hge
    have hcool : FTime.subLt e.timestamp st.last_call cd = false := by
      rw [hx, hy]
      simp only [FTime.subLt, decide_eq_false_iff_not]
      linarith
    refine ⟨?_, ?_, ?_⟩
    · cases h3 : cl e with
      | none => rw [replayStep_fail cd cl st e h1 hcool h3]
      | some r => rw [replayStep_classified cd cl st e r h1 hcool h3]
    · intro h3
      rw [replayStep_fail cd cl st e h1 hcool h3]
    · intro r h3
      exact replayStep_classified cd cl st e r h1 hcool h3

/-- Witness for the amended C7 at the cooldown-equality boundary. -/
theorem C7_cooldown_boundary_witness :
    (((130 : ℚ) - 100 < 30) →
      replayStep 30 classifyFail (⟨SessionTracker.mk0 60, [], FTime.fin 100, 0⟩ : ReplayState)
          (⟨"f130.jpg", FTime.fin 130, 6000, true⟩ : Entry)
        = idleSwept (⟨SessionTracker.mk0 60, [], FTime.fin 100, 0⟩ : ReplayState) (FTime.fin 130) ∧
      (replayStep 30 classifyFail (⟨SessionTracker.mk0 60, [], FTime.fin 100, 0⟩ : ReplayState)
          (⟨"f130.jpg", FTime.fin 130, 6000, true⟩ : Entry)).last_call = FTime.fin 100 ∧
      (replayStep 30 classifyFail (⟨SessionTracker.mk0 60, [], FTime.fin 100, 0⟩ : ReplayState)
          (⟨"f130.jpg", FTime.fin 130, 6000, true⟩ : Entry)).errors = 0) ∧
    ((30 : ℚ) ≤ 130 - 100 →
      (replayStep 30 classifyFail (⟨SessionTracker.mk0 60, [], FTime.fin 100, 0⟩ : ReplayState)
          (⟨"f130.jpg", FTime.fin 130, 6000, true⟩ : Entry)).last_call = FTime.fin 130 ∧
      (classifyFail (⟨"f130.jpg", FTime.fin 130, 6000, true⟩ : Entry) = none →
        (replayStep 30 classifyFail (⟨SessionTracker.mk0 60, [], FTime.fin 100, 0⟩ : ReplayState)
            (⟨"f130.jpg", FTime.fin 130, 6000, true⟩ : Entry)).errors = 0 + 1) ∧
      (∀ r, classifyFail (⟨"f130.jpg", FTime.fin 130, 6000, true⟩ : Entry) = some r →
        replayStep 30 classifyFail (⟨SessionTracker.mk0 60, [], FTime.fin 100, 0⟩ : ReplayState)
            (⟨"f130.jpg", FTime.fin 130, 6000, true⟩ : Entry)
          = { obsApplied (idleSwept (⟨SessionTracker.mk0 60, [], FTime.fin 100, 0⟩ : ReplayState) (FTime.fin 130)) r (FTime.fin 130) (some ⟨"f130.jpg", FTime.fin 130⟩) with last_call := FTime.fin 130 })) :=
  C7_cooldown_boundary 30 classifyFail
    (⟨SessionTracker.mk0 60, [], FTime.fin 100, 0⟩ : ReplayState)
    (⟨"f130.jpg", FTime.fin 130, 6000, true⟩ : Entry) 130 100 rfl rfl rfl

/-- Counterexample to C8 as stated: the tracker does not reject or log an
out-of-order call.  After an eating observation of A at t=100, the same
observation at t=50 (strictly earlier) is silently accepted: the state
is mutated by the normal same-activity update, nothing is completed, and
A's session ends up with `last_seen_at = 50 < started_at = 100`. -/
theorem C8_counterexample :
    ((((SessionTracker.mk0 60).on_analysis (oneCat "A" Activity.eating) (FTime.fin 100) none).1.on_analysis
        (oneCat "A" Activity.eating) (FTime.fin 50) none).1
      ≠ ((SessionTracker.mk0 60).on_analysis (oneCat "A" Activity.eating) (FTime.fin 100) none).1) ∧
    ((((SessionTracker.mk0 60).on_analysis (oneCat "A" Activity.eating) (FTime.fin 100) none).1.on_analysis
        (oneCat "A" Activity.eating) (FTime.fin 50) none).2 = []) ∧
    (dictGet (((SessionTracker.mk0 60).on_analysis (oneCat "A" Activity.eating) (FTime.fin 100) none).1.on_analysis
        (oneCat "A" Activity.eating) (FTime.fin 50) none).1.sessions "A"
      = some ⟨"A", "eating", FTime.fin 100, FTime.fin 50, []⟩) := by
  refine ⟨?_, ?_, ?_⟩ <;> with_unfolding_all decide

/-- Amended C8: the tracker has no timestamp-ordering validation.  A call
whose timestamp is strictly earlier than the session's last-observed
timestamp is silently accepted and the normal transition logic applied:
a same-activity observation still performs the ordinary
continue-session update (moving last-observed backwards). -/
theorem C8_out_of_order_accepted (tr : SessionTracker) (E : String)
    (s : FeedingSession) (a : Activity) (r : IdentifyResult)
    (t : FTime) (fi : Option FrameInfo) (x L : ℚ)
    (hget : dictGet tr.sessions E = some s) (ha : a.engaged = true)
    (hsa : s.activity = a.value) (hr : r.cats = [⟨E, a⟩])
    (ht : t = FTime.fin x) (hL : s.last_seen_at = FTime.fin L) (hlt : x < L) :
    tr.on_analysis r t fi
      = ({ tr with sessions := dictSet tr.sessions E (continueSession s t fi) }, []) := by
  rw [on_analysis_singleton tr r t fi _ hr]
  exact onCat_engaged_same tr t fi ⟨E, a⟩ s ha hget hsa

/-- Witness for the amended C8: an out-of-order call at t=50 against a
session last observed at t=100. -/
theorem C8_out_of_order_accepted_witness :
    (⟨60, [("A", ⟨"A", "eating", FTime.fin 100, FTime.fin 100, []⟩)]⟩ : SessionTracker).on_analysis
        (oneCat "A" Activity.eating) (FTime.fin 50) none
      = ({ (⟨60, [("A", ⟨"A", "eating", FTime.fin 100, FTime.fin 100, []⟩)]⟩ : SessionTracker) with
          sessions := dictSet [("A", ⟨"A", "eating", FTime.fin 100, FTime.fin 100, []⟩)] "A"
            (continueSession ⟨"A", "eating", FTime.fin 100, FTime.fin 100, []⟩ (FTime.fin 50) none) }, []) :=
  C8_out_of_order_accepted
    (⟨60, [("A", ⟨"A", "eating", FTime.fin 100, FTime.fin 100, []⟩)]⟩ : SessionTracker)
    "A" ⟨"A", "eating", FTime.fin 100, FTime.fin 100, []⟩ Activity.eating
    (oneCat "A" Activity.eating) (FTime.fin 50) none 50 100
    (by with_unfolding_all decide) (by with_unfolding_all decide)
    (by with_unfolding_all decide) (by with_unfolding_all decide)
    rfl rfl (by norm_num)

/-- Counterexample to C9 as stated: an archive record whose image file
is missing is skipped before the idle sweep, so `check_idle` is NOT
invoked with that frame's timestamp.  With an open session for A last
observed at t=0, idle timeout 60 and a missing-image frame at t=1000,
the step leaves the state untouched, although `check_idle(1000)` would
have completed A's session. -/
theorem C9_counterexample :
    replayStep 30 classifyFail
        (⟨⟨60, [("A", ⟨"A", "eating", FTime.fin 0, FTime.fin 0, []⟩)]⟩, [], FTime.fin 0, 0⟩ : ReplayState)
        (⟨"missing.jpg", FTime.fin 1000, 9000, false⟩ : Entry)
      = (⟨⟨60, [("A", ⟨"A", "eating", FTime.fin 0, FTime.fin 0, []⟩)]⟩, [], FTime.fin 0, 0⟩ : ReplayState) ∧
    ((⟨60, [("A", ⟨"A", "eating", FTime.fin 0, FTime.fin 0, []⟩)]⟩ : SessionTracker).check_idle
        (FTime.fin 1000)).2
      = [⟨"A", "eating", FTime.fin 0, FTime.fin 0, []⟩] ∧
    (replayStep 30 classifyFail
        (⟨⟨60, [("A", ⟨"A", "eating", FTime.fin 0, FTime.fin 0, []⟩)]⟩, [], FTime.fin 0, 0⟩ : ReplayState)
        (⟨"missing.jpg", FTime.fin 1000, 9000, false⟩ : Entry)).all_completed = [] := by
  refine ⟨?_, ?_, ?_⟩ <;> with_unfolding_all decide

/-- Amended C9: for every frame whose image file exists — including
frames later skipped by the cooldown — the idle sweep runs first, with
that frame's timestamp as `now`, before the cooldown gate and before the
frame's observation: the sessions appended to the completed list by the
step are exactly `check_idle(ts)`'s completions followed by the
observation's completions (none when the frame is cooldown-skipped or
classification fails). -/
theorem C9_idle_sweep_before_observation (cd : ℚ)
    (cl : Entry → Option IdentifyResult) (st : ReplayState) (e : Entry)
    (h1 : e.img_present = true) :
    (FTime.subLt e.timestamp st.last_call cd = true →
      replayStep cd cl st e = idleSwept st e.timestamp) ∧
    (∃ obsCompleted,
      (replayStep cd cl st e).all_completed
        = (st.all_completed ++ (st.tracker.check_idle e.timestamp).2) ++ obsCompleted ∧
      (∀ r, FTime.subLt e.timestamp st.last_call cd = false → cl e = some r →
        obsCompleted
          = ((st.tracker.check_idle e.timestamp).1.on_analysis r e.timestamp (some ⟨e.filename, e.timestamp⟩)).2) ∧
      ((FTime.subLt e.timestamp st.last_call cd = true ∨ cl e = none) →
        obsCompleted = [])) := by
  refine ⟨fun h2 => replayStep_cooled cd cl st e h1 h2, ?_⟩
  by_cases h2 : FTime.subLt e.timestamp st.last_call cd = true
  · refine ⟨[], ?_, ?_, fun _ => rfl⟩
    · rw [replayStep_cooled cd cl st e h1 h2]
      simp [idleSwept]
    · intro r hfalse _
      rw [h2] at hfalse
      exact absurd hfalse (by simp)
  · rw [Bool.not_eq_true] at h2
    cases h3 : cl e with
    | none =>
      refine ⟨[], ?_, ?_, fun _ => rfl⟩
      · rw [replayStep_fail cd cl st e h1 h2 h3]
        simp [idleSwept]
      · intro r _ hr
        exact Option.noConfusion hr
    | some r0 =>
      refine ⟨((st.tracker.check_idle e.timestamp).1.on_analysis r0 e.timestamp (some ⟨e.filename, e.timestamp⟩)).2, ?_, ?_, ?_⟩
      · rw [replayStep_classified cd cl st e r0 h1 h2 h3]
        simp [obsApplied, idleSwept]
      · intro r _ hr
        injection hr with hr
        rw [hr]
      · intro hcase
        rcases hcase with hcase | hcase
        · rw [h2] at hcase
          exact absurd hcase (by simp)
        · exact Option.noConfusion hcase

/-- Witness for the amended C9: a cooldown-skipped frame (t=110, last
attempt t=100, cooldown 30) with an idle session for A. -/
theorem C9_idle_sweep_before_observation_witness :
    (FTime.subLt (FTime.fin 110) (FTime.fin 100) 30 = true →
      replayStep 30 classifyFail
          (⟨⟨60, [("A", ⟨"A", "eating", FTime.fin 0, FTime.fin 0, []⟩)]⟩, [], FTime.fin 100, 0⟩ : ReplayState)
          (⟨"f110.jpg", FTime.fin 110, 9000, true⟩ : Entry)
        = idleSwept
            (⟨⟨60, [("A", ⟨"A", "eating", FTime.fin 0, FTime.fin 0, []⟩)]⟩, [], FTime.fin 100, 0⟩ : ReplayState)
            (FTime.fin 110)) ∧
    (∃ obsCompleted,
      (replayStep 30 classifyFail
          (⟨⟨60, [("A", ⟨"A", "eating", FTime.fin 0, FTime.fin 0, []⟩)]⟩, [], FTime.fin 100, 0⟩ : ReplayState)
          (⟨"f110.jpg", FTime.fin 110, 9000, true⟩ : Entry)).all_completed
        = (([] : List FeedingSession)
            ++ ((⟨60, [("A", ⟨"A", "eating", FTime.fin 0, FTime.fin 0, []⟩)]⟩ : SessionTracker).check_idle (FTime.fin 110)).2)
          ++ obsCompleted ∧
      (∀ r, FTime.subLt (FTime.fin 110) (FTime.fin 100) 30 = false →
        classifyFail (⟨"f110.jpg", FTime.fin 110, 9000, true⟩ : Entry) = some r →
        obsCompleted
          = ((((⟨60, [("A", ⟨"A", "eating", FTime.fin 0, FTime.fin 0, []⟩)]⟩ : SessionTracker).check_idle (FTime.fin 110)).1).on_analysis
              r (FTime.fin 110) (some ⟨"f110.jpg", FTime.fin 110⟩)).2) ∧
      ((FTime.subLt (FTime.fin 110) (FTime.fin 100) 30 = true ∨
        classifyFail (⟨"f110.jpg", FTime.fin 110, 9000, true⟩ : Entry) = none) →
        obsCompleted = [])) :=
  C9_idle_sweep_before_observation 30 classifyFail
    (⟨⟨60, [("A", ⟨"A", "eating", FTime.fin 0, FTime.fin 0, []⟩)]⟩, [], FTime.fin 100, 0⟩ : ReplayState)
    (⟨"f110.jpg", FTime.fin 110, 9000, true⟩ : Entry) rfl

/-- Claim C10: the final `check_idle(now=float("inf"))` of a replay run
closes every still-open session: the final open map is empty, the
sessions still open at the end of the archive are appended exactly once
(in order) at the end of the completed list, and the number of completed
sessions reported equals the number of sessions opened during the run —
no open session is silently dropped at end of archive. -/
theorem C10_final_flush (τ cd : ℚ) (cl : Entry → Option IdentifyResult)
    (entries : List Entry)
    (hfin : ∀ e ∈ entries, ∃ q, e.timestamp = FTime.fin q) :
    (replayRun τ cd cl entries).tracker.sessions = [] ∧
    (replayRun τ cd cl entries).all_completed
      = (replayLoop cd cl (replayInit τ) entries).all_completed
        ++ ((replayLoop cd cl (replayInit τ) entries).tracker.sessions).map Prod.snd ∧
    (replayRun τ cd cl entries).all_completed.length = replayOpens τ cd cl entries := by
  have hinv0 : replayInv (replayInit τ) := by
    refine ⟨?_, ?_⟩ <;> simp [replayInit, SessionTracker.mk0]
  have hinv := replayLoop_inv cd cl entries (replayInit τ) hinv0 hfin
  have hclosed := check_idle_all_closed hinv.1 hinv.2
  have hrun : replayRun τ cd cl entries
      = ⟨((replayLoop cd cl (replayInit τ) entries).tracker.check_idle FTime.inf).1,
         (replayLoop cd cl (replayInit τ) entries).all_completed
           ++ ((replayLoop cd cl (replayInit τ) entries).tracker.check_idle FTime.inf).2,
         (replayLoop cd cl (replayInit τ) entries).last_call,
         (replayLoop cd cl (replayInit τ) entries).errors⟩ := rfl
  have hopens := replayLoop_opens cd cl entries (replayInit τ) 0 hinv0.1
  refine ⟨?_, ?_, ?_⟩
  · rw [hrun]
    exact hclosed.1
  · rw [hrun]
    rw [hclosed.2]
  · rw [hrun]
    simp only [List.length_append, hclosed.2, List.length_map]
    have h2 := hopens.2
    have hc0 : (replayInit τ).all_completed.length = 0 := rfl
    have hs0 : (replayInit τ).tracker.sessions.length = 0 := rfl
    simp only [replayOpens]
    omega

/-- Witness for C10 at a concrete one-frame archive. -/
theorem C10_final_flush_witness :
    (replayRun 60 30 classifyFail [⟨"a.jpg", FTime.fin 100, 6000, true⟩]).tracker.sessions = [] ∧
    (replayRun 60 30 classifyFail [⟨"a.jpg", FTime.fin 100, 6000, true⟩]).all_completed
      = (replayLoop 30 classifyFail (replayInit 60) [⟨"a.jpg", FTime.fin 100, 6000, true⟩]).all_completed
        ++ ((replayLoop 30 classifyFail (replayInit 60) [⟨"a.jpg", FTime.fin 100, 6000, true⟩]).tracker.sessions).map Prod.snd ∧
    (replayRun 60 30 classifyFail [⟨"a.jpg", FTime.fin 100, 6000, true⟩]).all_completed.length
      = replayOpens 60 30 classifyFail [⟨"a.jpg", FTime.fin 100, 6000, true⟩] :=
  C10_final_flush 60 30 classifyFail [⟨"a.jpg", FTime.fin 100, 6000, true⟩]
    (by
      intro e he
      simp only [List.mem_singleton] at he
      subst he
      exact ⟨100, rfl⟩)

end Purrview
